import Mathlib

/-!
# Verification of the `openapi-fastify` configuration / routing core

This file gives a shallow embedding of the runtime behaviour of the
`openapi-fastify` library (files `src/utils.ts` and `src/router.ts`) and
proves or refutes the frozen specification claims about it.

JavaScript values are modelled by the inductive type `JValue`:
objects are association lists of string keys, arrays carry both their
element list and (as real JS arrays do) a list of extra non-index
properties, which `deepMerge` can graft onto an array.  JS `undefined`
is modelled by absence (`Option.none` at access sites); `null` is a
proper value.  Computations that can raise a `TypeError` at runtime are
modelled in `Except String`.
-/

set_option autoImplicit false

mutual

inductive JValue where
  | null : JValue
  | bool (b : Bool) : JValue
  | num (n : Int) : JValue
  | str (s : String) : JValue
  | arr (elems : JList) (props : JFields) : JValue
  | obj (fields : JFields) : JValue

deriving Repr, DecidableEq

/-- A list of JS values (array elements). -/
inductive JList where
  | nil : JList
  | cons (v : JValue) (t : JList) : JList

deriving Repr, DecidableEq

/-- An association list of string-keyed JS properties. -/
inductive JFields where
  | nil : JFields
  | cons (k : String) (v : JValue) (t : JFields) : JFields

deriving Repr, DecidableEq

end

namespace JFields

/-- Property lookup, first match (JS objects have unique keys). -/
def lookup (k : String) : JFields → Option JValue
  | .nil => none
  | .cons k' v t => if k' = k then some v else lookup k t

/-- Set a property: overwrite in place preserving insertion order, else append
(JS assignment semantics on plain objects). -/
def set (k : String) (x : JValue) : JFields → JFields
  | .nil => .cons k x .nil
  | .cons k' v t => if k' = k then .cons k' x t else .cons k' v (set k x t)

/-- Delete a property (JS `delete obj[k]`). -/
def erase (k : String) : JFields → JFields
  | .nil => .nil
  | .cons k' v t => if k' = k then t else .cons k' v (erase k t)

def keys : JFields → List String
  | .nil => []
  | .cons k _ t => k :: keys t

def isEmpty : JFields → Bool
  | .nil => true
  | .cons _ _ _ => false

/-- Whether some entry carries the key `k`. -/
def hasKey (k : String) : JFields → Bool
  | .nil => false
  | .cons k' _ t => k' = k || hasKey k t

/-- The keys are pairwise distinct (always true of a real JS object). -/
def nodupKeys : JFields → Bool
  | .nil => true
  | .cons k _ t => !hasKey k t && nodupKeys t

end JFields

namespace JList

def get (i : Nat) : JList → Option JValue
  | .nil => none
  | .cons v t => match i with
    | 0 => some v
    | i + 1 => get i t

def set (i : Nat) (x : JValue) : JList → JList
  | .nil => .nil
  | .cons v t => match i with
    | 0 => .cons x t
    | i + 1 => .cons v (set i x t)

def length : JList → Nat
  | .nil => 0
  | .cons _ t => length t + 1

def append : JList → JList → JList
  | .nil, l => l
  | .cons v t, l => .cons v (append t l)

end JList

/-- JS truthiness. `0`, `""`, `false`, `null` (and absent/`undefined` at the
access sites) are falsy; every object and array is truthy. -/
def truthy : JValue → Bool
  | .null => false
  | .bool b => b
  | .num n => n != 0
  | .str s => s ≠ ""
  | .arr _ _ => true
  | .obj _ => true

/-- JS `typeof v === 'object'`: true for objects, arrays and — as in JS — `null`. -/
def isObjType : JValue → Bool
  | .null => true
  | .arr _ _ => true
  | .obj _ => true
  | _ => false

/-- JS `Array.isArray v`. -/
def isArr : JValue → Bool
  | .arr _ _ => true
  | _ => false

def isObjCtor : JValue → Bool
  | .obj _ => true
  | _ => false

/-- Accumulating decimal parser over a digit list; `none` as soon as a
character is not a digit. -/
def canonDigits : Nat → List Char → Option Nat
  | acc, [] => some acc
  | acc, c :: rest => if c.isDigit then canonDigits (acc * 10 + (c.toNat - 48)) rest else none

/-- A canonical array index: `k` indexes an array iff it is the canonical
decimal representation of a natural number — all digits and no leading zero
(JS: `"01"` is not an index, `"0"` is). -/
def canonIdx? (k : String) : Option Nat :=
  match k.data with
  | [] => none
  | ['0'] => some 0
  | '0' :: _ => none
  | l => canonDigits 0 l

/-- Property read `v[k]` on a JS value; `none` models `undefined`.
Arrays expose their elements under canonical indices, their `length`, and
any extra grafted properties; strings expose characters and `length`. -/
def getProp (v : JValue) (k : String) : Option JValue :=
  match v with
  | .obj fs => fs.lookup k
  | .arr el pr =>
    match canonIdx? k with
    | some i => el.get i
    | none => if k = "length" then some (.num el.length) else pr.lookup k
  | .str s =>
    match canonIdx? k with
    | some i => (s.data.get? i).map (fun c => .str (String.mk [c]))
    | none => if k = "length" then some (.num s.length) else none
  | _ => none

/-- Property write `v[k] = x`.  Writing a fresh index one past the end of an
array appends; beyond-the-end writes pad with `null` (approximating JS
holes, which the library never creates).  Writes on primitives are no-ops,
as in non-strict JS. -/
def setProp (v : JValue) (k : String) (x : JValue) : JValue :=
  match v with
  | .obj fs => .obj (fs.set k x)
  | .arr el pr =>
    match canonIdx? k with
    | some i =>
      if i < el.length then .arr (el.set i x) pr
      else .arr (el.append (padTo (i - el.length) x)) pr
    | none => .arr el (pr.set k x)
  | v => v
where
  padTo : Nat → JValue → JList
    | 0, x => .cons x .nil
    | n + 1, x => .cons .null (padTo n x)

/-- Enumerate array elements as index-keyed fields (what `for key in value`
visits first on an array), followed by any extra properties. -/
def enumFields (i : Nat) : JList → JFields → JFields
  | .nil, pr => pr
  | .cons v t, pr => .cons (toString i) v (enumFields (i + 1) t pr)

/-- Enumerate the characters of a string as index-keyed fields
(`{..."ab"} = {0: "a", 1: "b"}`). -/
def enumChars (i : Nat) : List Char → JFields
  | [] => .nil
  | c :: t => .cons (toString i) (.str (String.mk [c])) (enumChars (i + 1) t)

/-- JS `Array.isArray(base) ? [...base] : { ...base }` — the fresh result value
`deepMerge` starts from.  Spreading an array copies its elements and drops
extra properties; spreading a primitive yields `{}` (a string spreads its
characters). -/
def copyBase : JValue → JValue
  | .obj fs => .obj fs
  | .arr el _ => .arr el .nil
  | .str s => .obj (enumChars 0 s.data)
  | _ => .obj .nil

mutual

/-- Function `deepMerge` from `src/utils.ts`:

```ts
export function deepMerge(base, value) {
  const result = Array.isArray(base) ? [...base] : { ...base };
  for (const key in value) {
    const baseValue = base[key];
    const updateValue = value[key];
    if (baseValue && updateValue && typeof baseValue === 'object' && typeof updateValue === 'object') {
      if (Array.isArray(updateValue)) { result[key] = updateValue; }
      else { result[key] = deepMerge(baseValue, updateValue); }
    } else if (updateValue !== undefined) { result[key] = updateValue; }
  }
  return result;
}
```

`for key in value` visits an object's own keys in insertion order, and for an
array patch the element indices followed by extra properties.  A non-object
patch has no enumerable keys, so the loop body never runs. -/
def deepMerge (base : JValue) (patch : JValue) : JValue :=
  match patch with
  | .obj pf => mergeFields (copyBase base) base pf
  | .arr el pr => mergeFields (mergeElems 0 (copyBase base) base el) base pr
  | _ => copyBase base
  termination_by structural patch

/-- One `for key in value` loop iteration per field of an object patch. -/
def mergeFields (result base : JValue) : JFields → JValue
  | .nil => result
  | .cons k pv rest =>
    let step :=
      match getProp base k with
      | some bv =>
        if truthy bv && truthy pv && isObjType bv && isObjType pv then
          if isArr pv then setProp result k pv
          else setProp result k (deepMerge bv pv)
        else setProp result k pv
      | none => setProp result k pv
    mergeFields step base rest
  termination_by structural fs => fs

/-- The loop iterations over the element indices of an array patch. -/
def mergeElems (i : Nat) (result base : JValue) : JList → JValue
  | .nil => result
  | .cons pv rest =>
    let k := toString i
    let step :=
      match getProp base k with
      | some bv =>
        if truthy bv && truthy pv && isObjType bv && isObjType pv then
          if isArr pv then setProp result k pv
          else setProp result k (deepMerge bv pv)
        else setProp result k pv
      | none => setProp result k pv
    mergeElems (i + 1) step base rest
  termination_by structural l => l

end

/-! ## Option resolution (`src/utils.ts`) -/

/-- Function `getOperationOptions` from `src/utils.ts`: missing option objects default
to `{}` (destructuring defaults), then
`deepMerge(deepMerge(routerOptions, routeOptions), operatorOptions)`. -/
def getOperationOptions (operatorOptions routeOptions routerOptions : Option JValue) : JValue :=
  deepMerge (deepMerge (routerOptions.getD (.obj .nil)) (routeOptions.getD (.obj .nil)))
    (operatorOptions.getD (.obj .nil))

/-- Constant `AUTO_VALIDATION_DEFAULTS.request` = `{validate: false}` (the current
`src/utils.ts` version of the constant carries no `errorResponse`). -/
def avDefaultRequest : JValue := .obj (.cons "validate" (.bool false) .nil)

/-- Constant `AUTO_VALIDATION_DEFAULTS` from `src/utils.ts`:
`{config: undefined, request: {validate: false}, response: {validate: false}}`
(the `config: undefined` binding is observationally absence and is modelled
by absence). -/
def AUTO_VALIDATION_DEFAULTS : JValue :=
  .obj (.cons "request" avDefaultRequest (.cons "response" avDefaultRequest .nil))

/-- The canonical normalized auto-validate configuration
`{config, request, response}` returned by `getAutoValidateConfig`
(`config: undefined` modelled as `none`). -/
structure AVConfig where
  config : Option JValue
  request : JValue
  response : JValue

deriving Repr, DecidableEq

/-- The inner helper of `getAutoValidateConfig`:
`(typeof config === 'boolean' ? { validate: config } : config) || AUTO_VALIDATION_DEFAULTS.request`. -/
def getReqResConfig (c : Option JValue) : JValue :=
  let x : Option JValue :=
    match c with
    | some (.bool b) => some (.obj (.cons "validate" (.bool b) .nil))
    | o => o
  match x with
  | some v => if truthy v then v else avDefaultRequest
  | none => avDefaultRequest

/-- Function `getAutoValidateConfig` from `src/utils.ts`.  The parameter defaults to
`false`; any falsy argument is coerced to `false`; a boolean produces
`{validate: b}` on both sides; an object (or array — `typeof` calls those
`'object'` too) is taken apart field-wise; any other truthy value falls
through to the defaults. -/
def getAutoValidateConfig (autoValidate : Option JValue) : AVConfig :=
  let av := match autoValidate with
    | none => JValue.bool false
    | some v => if truthy v then v else JValue.bool false
  match av with
  | .bool b =>
    ⟨none, .obj (.cons "validate" (.bool b) .nil), .obj (.cons "validate" (.bool b) .nil)⟩
  | .obj fs =>
    ⟨fs.lookup "config", getReqResConfig (fs.lookup "request"), getReqResConfig (fs.lookup "response")⟩
  | .arr el pr =>
    ⟨getProp (.arr el pr) "config", getReqResConfig (getProp (.arr el pr) "request"),
      getReqResConfig (getProp (.arr el pr) "response")⟩
  | _ => ⟨none, avDefaultRequest, avDefaultRequest⟩

/-! ## Path composition (`src/utils.ts`) -/

/-- JS `String.prototype.split` on a single-character separator, over the
character list of the string: always returns at least one (possibly empty)
chunk. -/
def jsSplit (sep : Char) : List Char → List (List Char)
  | [] => [[]]
  | c :: rest =>
    if c = sep then [] :: jsSplit sep rest
    else
      match jsSplit sep rest with
      | s :: ss => (c :: s) :: ss
      | [] => [[c]]

/-- JS `String.prototype.trim`. -/
def jsTrim (l : List Char) : List Char :=
  ((l.dropWhile Char.isWhitespace).reverse.dropWhile Char.isWhitespace).reverse

/-- JS `Array.prototype.join` with a single-character separator. -/
def jsJoin (sep : Char) : List (List Char) → List Char
  | [] => []
  | [s] => s
  | s :: t => s ++ sep :: jsJoin sep t

/-- Function `getOperationPath` from `src/utils.ts`:

```ts
export const getOperationPath = (path, options) => {
  const pathArray = [...options?.prefix?.split('/') ?? '', ...path.split('/')]
    .map(p => p.trim()).filter(Boolean);
  return `/${pathArray.join('/')}`;
}
```

A missing (or non-string) prefix spreads the empty string, contributing no
segments. -/
def getOperationPath (path : String) (options : Option JValue) : String :=
  let pre : List (List Char) :=
    match options.bind (fun o => getProp o "prefix") with
    | some (.str s) => jsSplit '/' s.data
    | _ => []
  let segs := ((pre ++ jsSplit '/' path.data).map jsTrim).filter (fun s => s ≠ [])
  ⟨'/' :: jsJoin '/' segs⟩

/-- Character class `[a-zA-Z_]` (start of a path-parameter name). -/
def isIdentStart (c : Char) : Bool := c.isAlpha || c = '_'

/-- Character class `[a-zA-Z0-9_]` (body of a path-parameter name). -/
def isIdentChar (c : Char) : Bool := c.isAlphanum || c = '_'

/-- Scanner state for the parameter-rewriting regex: scanning plainly, just
behind an unemitted `:`, or inside a parameter name whose `{` was emitted. -/
inductive RpState where
  | plain : RpState
  | sawColon : RpState
  | inParam : RpState

deriving Repr, DecidableEq

/-- Left-to-right scanner implementing
`path.replace(/:([a-zA-Z_][a-zA-Z0-9_]*)/g, "{$1}")`: a `:` followed by
`[a-zA-Z_]` opens a brace-wrapped parameter name that extends over
`[a-zA-Z0-9_]*`; any other `:` is literal, and scanning resumes at the first
character after each match. -/
def rp : RpState → List Char → List Char
  | .plain, [] => []
  | .plain, c :: rest => if c = ':' then rp .sawColon rest else c :: rp .plain rest
  | .sawColon, [] => [':']
  | .sawColon, c :: rest =>
    if isIdentStart c then '{' :: c :: rp .inParam rest
    else if c = ':' then ':' :: rp .sawColon rest
    else ':' :: c :: rp .plain rest
  | .inParam, [] => ['}']
  | .inParam, c :: rest =>
    if isIdentChar c then c :: rp .inParam rest
    else if c = ':' then '}' :: rp .sawColon rest
    else '}' :: c :: rp .plain rest
  termination_by structural _ l => l

/-- Function `replacePathWithOpenApiParams` from `src/utils.ts`. -/
def replacePathWithOpenApiParams (path : String) : String := ⟨rp .plain path.data⟩

/-! ## Convenience constructors for concrete JS values -/

def jfieldsOf : List (String × JValue) → JFields
  | [] => .nil
  | (k, v) :: t => .cons k v (jfieldsOf t)

def jlistOf : List JValue → JList
  | [] => .nil
  | v :: t => .cons v (jlistOf t)

def jobj (l : List (String × JValue)) : JValue := .obj (jfieldsOf l)

def jarr (l : List JValue) : JValue := .arr (jlistOf l) .nil

/-! ## The router (`src/router.ts`) -/

/-- Constant `OPERATOR_NAMES` — the HTTP methods an operator record can carry. -/
inductive Method where
  | get | post | put | delete | patch | options | head

deriving Repr, DecidableEq

/-- The string key a method uses in JS objects (`Object.entries` keys,
`paths[path][method]`). -/
def Method.key : Method → String
  | .get => "get"
  | .post => "post"
  | .put => "put"
  | .delete => "delete"
  | .patch => "patch"
  | .options => "options"
  | .head => "head"

/-- An `Operator` `{specification, handler, options}` as built by
`OpenApiRouter.op`.  The handler function itself is opaque to this
development and is identified by a number. -/
structure Operator where
  specification : JValue
  handlerId : Nat
  options : Option JValue

deriving Repr, DecidableEq

/-- A registered route `{path, methods, options}` (`OpenApiRouter.routes`
entries).  `methods` is the JS method-name-keyed record, in insertion
order. -/
structure Route where
  path : String
  methods : List (Method × Operator)
  options : Option JValue

deriving Repr, DecidableEq

/-- The state of an `OpenApiRouter`: the OpenAPI document, the constructor
(service-level) options, and the registered routes.  The function-valued
`specModifier` option cannot live inside a `JValue` and is carried
separately. -/
structure RouterState where
  document : JValue
  options : JValue
  specModifier : Option (JValue → JValue)
  routes : List Route

def applyModifier (st : RouterState) (spec : JValue) : JValue :=
  match st.specModifier with
  | some f => f spec
  | none => spec

/-- JS object spread `{...a, ...b}` on two method records: keys of `a` keep
their position with `b`'s value winning on conflicts, and `b`'s fresh keys
are appended in `b`'s order. -/
def recordMerge (a b : List (Method × Operator)) : List (Method × Operator) :=
  a.map (fun p => (p.1, (List.lookup p.1 b).getD p.2)) ++
    b.filter (fun p => (List.lookup p.1 a).isNone)

/-- In-place update of the first route with the given path
(`existingRoute.methods = {...existingRoute.methods, ...methods};
existingRoute.options = options`). -/
def updateFirstRoute (p : String) (methods : List (Method × Operator)) (options : Option JValue) :
    List Route → List Route
  | [] => []
  | r :: rest =>
    if r.path = p then { r with methods := recordMerge r.methods methods, options := options } :: rest
    else r :: updateFirstRoute p methods options rest

/-- Method `OpenApiRouter.route` from `src/router.ts`: compose the final path from
the raw path and the route options merged over the constructor options; if a
route with that composed path already exists, merge the method records and
override its options, emitting a warning (the returned flag); otherwise
append a new route. -/
def routeReg (st : RouterState) (path : String) (methods : List (Method × Operator))
    (options : Option JValue) : RouterState × Bool :=
  let routerOptions := getOperationOptions none options (some st.options)
  let newPath := getOperationPath path (some routerOptions)
  if st.routes.any (fun r => r.path = newPath) then
    ({ st with routes := updateFirstRoute newPath methods options st.routes }, true)
  else
    ({ st with routes := st.routes ++ [{ path := newPath, methods := methods, options := options }] }, false)

/-- What `OpenApiRouter.initialize` does, observably: the
`(method, path, schema)` triples registered with the Fastify instance, and
whether each validation hook was installed. -/
structure InitResult where
  registered : List (Method × String × JValue)
  preValidationHook : Bool
  preSerializationHook : Bool

deriving Repr, DecidableEq

/-- Method `OpenApiRouter.initialize` from `src/router.ts`: every stored route's
path is composed *again* with the per-operation effective options
(`getOperationPath(rawPath, operationOptions)` where `rawPath` is the stored,
already-composed path), and the two lifecycle hooks are installed solely
according to `getAutoValidateConfig(this.options.autoValidate)`, with an
`!== false` test on each `validate` flag. -/
def initRouter (st : RouterState) : InitResult :=
  let registered := st.routes.flatMap (fun r =>
    r.methods.map (fun mop =>
      let operationOptions := getOperationOptions mop.2.options r.options (some st.options)
      (mop.1, getOperationPath r.path (some operationOptions), applyModifier st mop.2.specification)))
  let autoValidate := getAutoValidateConfig (getProp st.options "autoValidate")
  { registered := registered
    preValidationHook := getProp autoValidate.request "validate" != some (.bool false)
    preSerializationHook := getProp autoValidate.response "validate" != some (.bool false) }

/-- JS member access `base.k` where `base` may be `undefined`/`null`:
reading a property of `undefined` or `null` throws a `TypeError`; on any
other value it yields the property (possibly `undefined`). -/
def jsGet (base : Option JValue) (k : String) : Except String (Option JValue) :=
  match base with
  | none => .error "TypeError: cannot read properties of undefined"
  | some .null => .error "TypeError: cannot read properties of null"
  | some v => .ok (getProp v k)

/-- JS object spread `{...v}` of a possibly absent value: objects keep their
fields, arrays and strings spread index-keyed entries, everything else
yields `{}`. -/
def spreadToObj (v : Option JValue) : JValue :=
  match v with
  | some (.obj fs) => .obj fs
  | some (.arr el pr) => .obj (enumFields 0 el pr)
  | some (.str s) => .obj (enumChars 0 s.data)
  | _ => .obj .nil

/-- JS string coercion of a value used as a property key (`content[k]`).
Array stringification joins elements and is left unmodelled (the library
never indexes by an array). -/
def jsToKey (v : JValue) : String :=
  match v with
  | .str s => s
  | .num n => toString n
  | .bool b => if b then "true" else "false"
  | .null => "null"
  | .obj _ => "[object Object]"
  | .arr _ _ => ""

/-- Function `getRequestBodySchema` from the current `src/utils.ts` — note its
two-parameter signature `(contentType, specification)`:

```ts
export const getRequestBodySchema = (contentType, specification) => {
  const { requestBody } = specification;
  if (!requestBody) return undefined;
  const { content } = requestBody;
  if (!content) return undefined;
  return content[contentType]?.schema;
}
```

Destructuring `specification` throws a `TypeError` when it is
`undefined`/`null`. -/
def getRequestBodySchema (contentType : JValue) (specification : Option JValue) :
    Except String (Option JValue) :=
  match specification with
  | none => .error "TypeError: cannot destructure requestBody of undefined"
  | some .null => .error "TypeError: cannot destructure requestBody of null"
  | some s =>
    match getProp s "requestBody" with
    | none => .ok none
    | some rb =>
      if !truthy rb then .ok none
      else
        match getProp rb "content" with
        | none => .ok none
        | some c =>
          if !truthy c then .ok none
          else
            match getProp c (jsToKey contentType) with
            | none => .ok none
            | some .null => .ok none
            | some cv => .ok (getProp cv "schema")

/-! ### `OpenApiRouter.ref` -/

/-- JS `ref.replace('#/', '')`: delete the first occurrence of `#/`. -/
def replaceFirstHashSlash : List Char → List Char
  | [] => []
  | '#' :: '/' :: rest => rest
  | c :: rest => c :: replaceFirstHashSlash rest

/-- Method `OpenApiRouter.ref` from `src/router.ts`:

```ts
ref(ref, { useRef } = { useRef: false }) {
  const [, , schema] = ref.replace('#/', '').split('/');
  const component = this.document.components.schemas[schema];
  if (useRef) { return { $ref: ref } }
  return { ...component }
}
```

The destructured `options` never reads an `override`, so the `override`
argument a caller may supply is ignored.  The component lookup is hardwired
to `components.schemas` and runs before the `useRef` test; it throws if
`document.components` or `document.components.schemas` is `undefined`/`null`.
A missing parse segment indexes `schemas` with the key `"undefined"`. -/
def refFn (document : JValue) (r : String) (useRef : Bool) (_override : Option JValue) :
    Except String JValue := do
  let parts := jsSplit '/' (replaceFirstHashSlash r.data)
  let name : String := match parts.get? 2 with
    | some cs => ⟨cs⟩
    | none => "undefined"
  let comps ← jsGet (some document) "components"
  let schemas ← jsGet comps "schemas"
  let component ← jsGet schemas name
  if useRef then
    return .obj (.cons "$ref" (.str r) .nil)
  else
    return spreadToObj component

/-! ### `OpenApiRouter.specification` -/

/-- Truth of `routeOptions?.excludeFromSpecification === true` for a route. -/
def routeExcluded (r : Route) : Bool :=
  match r.options with
  | some o => getProp o "excludeFromSpecification" == some (.bool true)
  | none => false

/-- Truth of `options?.excludeFromSpecification === true` for the fully merged
per-operation options. -/
def operatorExcluded (st : RouterState) (r : Route) (op : Operator) : Bool :=
  getProp (getOperationOptions op.options r.options (some st.options)) "excludeFromSpecification" ==
    some (.bool true)

/-- Truth of `Object.keys(v).length === 0`. -/
def jsEmptyKeys (v : JValue) : Bool :=
  match v with
  | .obj fs => fs.isEmpty
  | _ => false

/-- The inner method loop of the `specification` getter: write each
non-excluded method's (possibly modified) specification into the path
entry. -/
def routeEntry (st : RouterState) (r : Route) (init : JValue) : JValue :=
  r.methods.foldl (fun acc mop =>
    if operatorExcluded st r mop.2 then acc
    else setProp acc mop.1.key (applyModifier st mop.2.specification)) init

/-- Processing of one registered route by the `specification` getter:
skip route-level-excluded routes entirely; otherwise populate (or reuse)
`paths[replacePathWithOpenApiParams(rawPath)]` and delete it again if it
ended up with zero keys. -/
def processRoute (st : RouterState) (paths : JValue) (r : Route) : JValue :=
  if routeExcluded r then paths
  else
    let key := replacePathWithOpenApiParams r.path
    let init := match getProp paths key with
      | some v => if truthy v then v else .obj .nil
      | none => .obj .nil
    let entry := routeEntry st r init
    if jsEmptyKeys entry then
      match paths with
      | .obj fs => .obj (fs.erase key)
      | v => v
    else setProp paths key entry

/-- The starting `paths` map: `newSpec.paths`, replaced by `{}` when falsy. -/
def initialPaths (st : RouterState) : JValue :=
  match getProp (spreadToObj (some st.document)) "paths" with
  | some v => if truthy v then v else .obj .nil
  | none => .obj .nil

/-- The `paths` component of the assembled specification. -/
def specificationPaths (st : RouterState) : JValue :=
  st.routes.foldl (processRoute st) (initialPaths st)

/-- Getter `OpenApiRouter.specification` from `src/router.ts`: a shallow copy
of the document whose `paths` map is rebuilt from the registered routes. -/
def specificationDoc (st : RouterState) : JValue :=
  setProp (spreadToObj (some st.document)) "paths" (specificationPaths st)

/-! ### The pre-validation hook -/

/-- An inbound request as the hook sees it: its method, the registered route
url (`request.routeOptions.url`), and its parsed body (`none` =
no/`undefined` body). -/
structure JsRequest where
  method : Method
  url : String
  body : Option JValue

deriving Repr, DecidableEq

/-- Result of `describeOperation`: the matched route and operation, the
merged options and the normalized auto-validate configuration spread over
them. -/
structure OpDescription where
  route : Option Route
  operation : Option Operator
  options : JValue
  autoValidate : AVConfig

/-- Method `OpenApiRouter.describeOperation` from `src/router.ts`: find the
route whose stored path equals the request url, pick the operation by
method name, merge `operation?.options`, `route?.options` and the
constructor options, and normalize the merged `autoValidate`. -/
def describeOperation (st : RouterState) (method : Method) (path : String) : OpDescription :=
  let route := st.routes.find? (fun r => r.path = path)
  let operation := route.bind (fun r => List.lookup method r.methods)
  let opts := getOperationOptions (operation.bind (fun o => o.options)) (route.bind (fun r => r.options))
    (some st.options)
  { route := route
    operation := operation
    options := opts
    autoValidate := getAutoValidateConfig (getProp opts "autoValidate") }

/-- A schema engine capability: compile-and-run a schema against a payload,
returning validity and the structured error list (`validate.errors`). -/
def Validator : Type := JValue → JValue → Bool × JValue

/-- Observable outcome of the hook for one request: either fall through to
the handler, or short-circuit by replying with a status and payload. -/
inductive HookResult where
  | proceed : HookResult
  | reply (status : JValue) (payload : JValue) : HookResult

deriving Repr, DecidableEq

/-- The error-reply computation of the hook's failure branch
(`src/router.ts` lines 400–404):

```ts
const autoValidate = getAutoValidateConfig(this.options.autoValidate);
const status = autoValidate?.request?.errorResponse?.status
  || AUTO_VALIDATION_DEFAULTS.request.errorResponse.status;
const payload = autoValidate?.request?.errorResponse?.payload
  || { ...AUTO_VALIDATION_DEFAULTS.request.errorResponse.payload, errors };
const response = typeof payload === 'function' ? payload(errors || []) : payload;
return reply.status(status).send(response);
```

Only the *constructor* options are consulted.  Whenever either `||` falls
through to its right operand, the member chain
`AUTO_VALIDATION_DEFAULTS.request.errorResponse.status` (resp. `.payload`)
is evaluated — and since the current `AUTO_VALIDATION_DEFAULTS` carries no
`errorResponse`, that chain reads a property of `undefined` and throws.
Function-valued payloads are not representable in `JValue` and are
unmodelled; the library's own tests use plain object payloads. -/
def requestErrorReply (st : RouterState) (_errors : JValue) : Except String HookResult := do
  let autoValidate := getAutoValidateConfig (getProp st.options "autoValidate")
  let er : Option JValue := getProp autoValidate.request "errorResponse"
  let lhsStatus : Option JValue := er.bind (fun e => if e = .null then none else getProp e "status")
  let status ← match lhsStatus with
    | some v => if truthy v then pure v else defaultErrorChain "status"
    | none => defaultErrorChain "status"
  let lhsPayload : Option JValue := er.bind (fun e => if e = .null then none else getProp e "payload")
  let payload ← match lhsPayload with
    | some v => if truthy v then pure v else defaultErrorChain "payload"
    | none => defaultErrorChain "payload"
  return .reply status payload
where
  /-- Evaluation of `AUTO_VALIDATION_DEFAULTS.request.errorResponse.<leaf>`. -/
  defaultErrorChain (leaf : String) : Except String JValue := do
    let r1 ← jsGet (some AUTO_VALIDATION_DEFAULTS) "request"
    let r2 ← jsGet r1 "errorResponse"
    let r3 ← jsGet r2 leaf
    return r3.getD .null

/-- Body of the `try` block of the `preValidation` hook (`src/router.ts`
lines 384–409); a thrown `TypeError` propagates to the surrounding
`catch`. -/
def preValidationTry (st : RouterState) (validator : Validator) (req : JsRequest) :
    Except String HookResult := do
  let d := describeOperation st req.method req.url
  if req.method = .get then return .proceed
  if req.url = "" then return .proceed
  match req.body with
  | none => return .proceed
  | some payload =>
    if !truthy payload then return .proceed
    match d.operation with
    | none => return .proceed
    | some operation =>
      if getProp d.autoValidate.request "validate" != some (.bool true) then return .proceed
      -- the call site passes a single argument: contentType := operation.specification,
      -- specification := undefined
      let reqBodySpec ← getRequestBodySchema operation.specification none
      match reqBodySpec with
      | none => return .proceed
      | some sch =>
        if !truthy sch then return .proceed
        let (isValid, errors) := validator sch payload
        if isValid then return .proceed
        else requestErrorReply st errors

/-- The `preValidation` hook: its `try/catch` swallows any thrown error and
returns normally, letting the request continue to the handler. -/
def preValidation (st : RouterState) (validator : Validator) (req : JsRequest) : HookResult :=
  match preValidationTry st validator req with
  | .ok r => r
  | .error _ => .proceed

/-! ## Concrete fixtures (mirroring the repository's test data) -/

/-- The `User` component schema of the unit tests' `mockDocument`. -/
def userSchema : JValue :=
  jobj [("type", .str "object"),
        ("properties", jobj [("id", jobj [("type", .str "number")]),
                             ("name", jobj [("type", .str "string")])])]

/-- The `mockDocument` of the unit tests. -/
def mockDocument : JValue :=
  jobj [("openapi", .str "3.0.0"),
        ("info", jobj [("title", .str "Test API"), ("version", .str "1.0.0")]),
        ("components", jobj [("schemas", jobj [("User", userSchema)])])]

/-- An empty router over a document with the given constructor options. -/
def mkRouter (document : JValue) (opts : JValue) : RouterState :=
  { document := document, options := opts, specModifier := none, routes := [] }

/-- A user-creation request body schema requiring `email` (as in the
integration test app). -/
def createUserBodySchema : JValue :=
  jobj [("type", .str "object"),
        ("properties", jobj [("username", jobj [("type", .str "string")]),
                             ("email", jobj [("type", .str "string")]),
                             ("password", jobj [("type", .str "string")])]),
        ("required", jarr [.str "username", .str "email", .str "password"])]

/-- The `POST /users` operation specification of the integration test app. -/
def createUserSpec : JValue :=
  jobj [("summary", .str "Create a new user"),
        ("requestBody", jobj [("required", .bool true),
                              ("content", jobj [("application/json",
                                jobj [("schema", createUserBodySchema)])])]),
        ("responses", jobj [("201", jobj [("description", .str "User created")])])]

def helloSpec : JValue :=
  jobj [("summary", .str "Test"), ("responses", jobj [("200", jobj [("description", .str "OK")])])]

/-- The integration test app's router state: constructor-level
`autoValidate {request: {validate: true}, response: {validate: true}}` and a
registered `POST /users` route. -/
def c2State : RouterState :=
  (routeReg
    (mkRouter mockDocument
      (jobj [("autoValidate", jobj [("request", jobj [("validate", .bool true)]),
                                    ("response", jobj [("validate", .bool true)])])]))
    "/users" [(.post, { specification := createUserSpec, handlerId := 1, options := none })] none).1

/-- A `POST /users` request whose body is missing the required `email`. -/
def c2Request : JsRequest :=
  { method := .post, url := "/users",
    body := some (jobj [("username", .str "baduser"), ("password", .str "testpassword")]) }

/-! ## Derived notions used to state the claims -/

/-- Follow a key path through nested values; `none` as soon as a key is
absent. -/
def lookupPath : JValue → List String → Option JValue
  | v, [] => some v
  | v, k :: ks =>
    match getProp v k with
    | some w => lookupPath w ks
    | none => none

/-- First-set-wins choice between two optional values. -/
def firstSet (a b : Option JValue) : Option JValue :=
  match a with
  | some v => some v
  | none => b

/-- The per-key result `deepMerge` stores for a patch value `pv` over an
optional base value, read off the loop body of `deepMerge`. -/
def mergeValDef (bv : Option JValue) (pv : JValue) : JValue :=
  match bv with
  | some b =>
    if truthy b && truthy pv && isObjType b && isObjType pv then
      if isArr pv then pv else deepMerge b pv
    else pv
  | none => pv

/-- Structural compatibility of a config value with a leaf path: along every
proper prefix of the path the value is absent or a plain object (with the
unique keys every JS object has), and at the path itself absent or a
non-object leaf (scalar or array). -/
def okAt : Option JValue → List String → Bool
  | none, _ => true
  | some v, [] => !isObjCtor v
  | some v, _k :: ks =>
    match v with
    | .obj fs => fs.nodupKeys && okAt (fs.lookup _k) ks
    | _ => false

/-- The object form `{request: {validate: b}, response: {validate: b}}` that
the spec declares equivalent to a boolean `autoValidate` value `b`
(claim-side definition, written from the spec's words). -/
def expandVal : JValue → JValue
  | .bool b =>
    jobj [("request", jobj [("validate", .bool b)]),
          ("response", jobj [("validate", .bool b)])]
  | v => v

def expandAVFields : JFields → JFields
  | .nil => .nil
  | .cons k v t => .cons k (if k = "autoValidate" then expandVal v else v) (expandAVFields t)

/-- Replace a boolean `autoValidate` field of an options object by its
spec-declared object form before merging (claim-side definition). -/
def expandBoolAV : JValue → JValue
  | .obj fs => .obj (expandAVFields fs)
  | v => v

/-- The normalized auto-validate part of the resolved options of one
operation, as `describeOperation` computes it. -/
def resolvedAV (operatorOptions routeOptions routerOptions : Option JValue) : AVConfig :=
  getAutoValidateConfig
    (getProp (getOperationOptions operatorOptions routeOptions routerOptions) "autoValidate")

/-- At this level `autoValidate` is a boolean or not set. -/
def avBoolOrAbsent (o : Option JValue) : Bool :=
  match o with
  | none => true
  | some v =>
    match getProp v "autoValidate" with
    | none => true
    | some (.bool _) => true
    | _ => false

/-- At this level `autoValidate` is a plain object or not set. -/
def avObjOrAbsent (o : Option JValue) : Bool :=
  match o with
  | none => true
  | some v =>
    match getProp v "autoValidate" with
    | none => true
    | some (.obj _) => true
    | _ => false

/-- The path segments a string contributes under `getOperationPath`'s
split/trim/filter normalization. -/
def segsOf (s : String) : List (List Char) :=
  ((jsSplit '/' s.data).map jsTrim).filter (fun x => x ≠ [])

/-- The segments contributed by the `prefix` of an options value (a missing
or non-string prefix contributes none). -/
def preSegs (o : Option JValue) : List (List Char) :=
  match o.bind (fun v => getProp v "prefix") with
  | some (.str s) => segsOf s
  | _ => []

/-- Truth of "the effective options carry a prefix with at least one real
segment". -/
def prefixHasSeg (o : JValue) : Bool :=
  match getProp o "prefix" with
  | some (.str s) => segsOf s ≠ []
  | _ => false

/-- Number of `/` characters. -/
def countSlash (l : List Char) : Nat := l.count '/'

/-- The key under which a registered route appears in the assembled
document's `paths`. -/
def docKey (r : Route) : String := replacePathWithOpenApiParams r.path

/-! ## Claim-specific fixtures -/

/-- Route-level options carrying a nested `autoValidate.request.errorResponse`
(whose `status` leaf is set to 422). -/
def c1RouteOpts : JValue :=
  jobj [("autoValidate",
    jobj [("request", jobj [("validate", .bool true),
                            ("errorResponse", jobj [("status", .num 422)])])])]

/-- Operator-level options setting `autoValidate` by boolean shorthand. -/
def c1OperatorOpts : JValue := jobj [("autoValidate", .bool false)]

/-- The leaf path `autoValidate.request.errorResponse.status`. -/
def c1Path : List String := ["autoValidate", "request", "errorResponse", "status"]

def c3RouteOpts : JValue :=
  jobj [("autoValidate",
    jobj [("request", jobj [("validate", .bool true),
                            ("errorResponse", jobj [("status", .num 422)])])])]

def c3OperatorOpts : JValue := jobj [("autoValidate", .bool true)]

def c5Override : JValue := jobj [("required", jarr [.str "id"])]

/-- A document whose `components.responses` has a `Foo` component that
`components.schemas` lacks. -/
def c6Document : JValue :=
  jobj [("components",
    jobj [("schemas", jobj []),
          ("responses", jobj [("Foo", jobj [("description", .str "ok")])])])]

def c7Base : JValue := jobj [("a", jarr [.num 1, .num 2])]

def c7Patch : JValue := jobj [("a", jobj [("0", .num 9)])]

def c8Op1 : Operator := { specification := helloSpec, handlerId := 1, options := none }

def c8Op2 : Operator := { specification := createUserSpec, handlerId := 2, options := none }

def c8Opts1 : JValue := jobj [("autoValidate", .bool true)]

def c8Opts2 : JValue := jobj [("autoValidate", .bool false)]

/-- A router with a single route whose only operation is excluded from the
specification at the operator level. -/
def c9State : RouterState :=
  (routeReg (mkRouter mockDocument (jobj [])) "/only"
    [(.get, { specification := helloSpec, handlerId := 1,
              options := some (jobj [("excludeFromSpecification", .bool true)]) })] none).1

def c9Route : Route :=
  { path := "/only",
    methods := [(.get, { specification := helloSpec, handlerId := 1,
                         options := some (jobj [("excludeFromSpecification", .bool true)]) })],
    options := none }

def c10Opts : JValue := jobj [("prefix", .str "/api")]

/-- Witness fields for the all-boolean case of the shorthand equivalence. -/
def c3wOp : JFields := jfieldsOf [("autoValidate", .bool true)]

def c3wRo : JFields := jfieldsOf [("autoValidate", .bool false), ("prefix", .str "/v1")]

def c3wRr : JFields := jfieldsOf [("prefix", .str "/api")]

def c7wBase : JFields := jfieldsOf [("o", jobj [("p", .num 1)])]

def c7wPatch : JFields := jfieldsOf [("o", jobj [("q", .num 2)])]

/-! ## Concrete evaluations (the repository unit-test cases) -/

example :
    deepMerge (.obj (.cons "a" (.num 1) (.cons "b" (.num 2) .nil)))
      (.obj (.cons "b" (.num 3) (.cons "c" (.num 4) .nil))) =
    .obj (.cons "a" (.num 1) (.cons "b" (.num 3) (.cons "c" (.num 4) .nil))) := by
  decide

example :
    deepMerge
      (.obj (.cons "a" (.obj (.cons "x" (.num 1) (.cons "y" (.num 2) .nil))) .nil))
      (.obj (.cons "a" (.obj (.cons "y" (.num 4) (.cons "z" (.num 5) .nil))) .nil)) =
    .obj (.cons "a"
      (.obj (.cons "x" (.num 1) (.cons "y" (.num 4) (.cons "z" (.num 5) .nil)))) .nil) := by
  decide

example :
    deepMerge (.obj (.cons "items" (.arr (.cons (.num 1) (.cons (.num 2) (.cons (.num 3) .nil))) .nil) .nil))
      (.obj (.cons "items" (.arr (.cons (.num 4) (.cons (.num 5) .nil)) .nil) .nil)) =
    .obj (.cons "items" (.arr (.cons (.num 4) (.cons (.num 5) .nil)) .nil) .nil) := by
  decide

example :
    getAutoValidateConfig (some (.bool true)) =
      ⟨none, .obj (.cons "validate" (.bool true) .nil), .obj (.cons "validate" (.bool true) .nil)⟩ := by
  decide

example : getAutoValidateConfig (some (.num 0)) = getAutoValidateConfig none := by decide

example : getAutoValidateConfig (some (.str "")) = getAutoValidateConfig none := by decide

example :
    getOperationOptions
      (some (.obj (.cons "prefix" (.str "/operator") (.cons "autoValidate" (.bool true) .nil))))
      (some (.obj (.cons "prefix" (.str "/route")
        (.cons "autoValidate" (.obj (.cons "request" (.obj (.cons "validate" (.bool true) .nil)) .nil)) .nil))))
      (some (.obj (.cons "prefix" (.str "/router") (.cons "autoValidate" (.bool false) .nil)))) =
    .obj (.cons "prefix" (.str "/operator") (.cons "autoValidate" (.bool true) .nil)) := by
  decide

example :
    getOperationPath "/users/{id}/posts" (some (.obj (.cons "prefix" (.str "/api") .nil))) =
      "/api/users/{id}/posts" := by decide

example :
    getOperationPath "users/{id}/posts" (some (.obj (.cons "prefix" (.str "/api/v3") .nil))) =
      "/api/v3/users/{id}/posts" := by decide

example : getOperationPath "/users/{id}/posts" (some (.obj .nil)) = "/users/{id}/posts" := by decide

example :
    getOperationPath "/users/ /posts" (some (.obj (.cons "prefix" (.str "/api") .nil))) =
      "/api/users/posts" := by decide

example : getOperationPath "/users" (some (.obj (.cons "prefix" (.str "") .nil))) = "/users" := by decide

example : replacePathWithOpenApiParams "/users/:id" = "/users/{id}" := by decide

example : replacePathWithOpenApiParams "/users/:userId/posts/:postId" = "/users/{userId}/posts/{postId}" := by decide

example : replacePathWithOpenApiParams "/users/:user_id" = "/users/{user_id}" := by decide

example : replacePathWithOpenApiParams "/users/:id123" = "/users/{id123}" := by decide

example : replacePathWithOpenApiParams "/users/:123id" = "/users/:123id" := by decide

example : replacePathWithOpenApiParams "" = "" := by decide

example :
    (routeReg (mkRouter mockDocument (jobj [])) "/test"
      [(.get, { specification := helloSpec, handlerId := 1, options := none })] none).2 = false := by
  decide

example :
    (let st1 := (routeReg (mkRouter mockDocument (jobj [])) "/test"
      [(.get, { specification := helloSpec, handlerId := 1, options := none })] none).1
    let r2 := routeReg st1 "/test"
      [(.post, { specification := helloSpec, handlerId := 2, options := none })] none
    r2.2 = true ∧ r2.1.routes.length = 1 ∧
      (r2.1.routes.map (fun r => r.methods.map Prod.fst)) = [[Method.get, Method.post]]) := by
  decide

example :
    refFn mockDocument "#/components/schemas/User" false none = .ok userSchema := by rfl

example :
    refFn mockDocument "#/components/schemas/User" true none =
      .ok (jobj [("$ref", .str "#/components/schemas/User")]) := by rfl

example :
    refFn mockDocument "#/components/schemas/NonExistent" false none = .ok (jobj []) := by rfl

example :
    (let st := (routeReg (mkRouter mockDocument (jobj [])) "/users/:id"
      [(.get, { specification := helloSpec, handlerId := 1, options := none })] none).1
    (getProp (specificationPaths st) "/users/{id}").bind (fun e => getProp e "get") = some helloSpec) := by
  decide

example :
    (let st := (routeReg (mkRouter mockDocument (jobj [])) "/test"
      [(.get, { specification := helloSpec, handlerId := 1, options := none })]
      (some (jobj [("excludeFromSpecification", .bool true)]))).1
    getProp (specificationPaths st) "/test" = none) := by
  decide

/-! ## Basic lemmas about fields and property access -/

/-- Structural induction for `JFields` alone (the mutual recursor has
several motives, which the `induction` tactic cannot use). -/
theorem JFields.fieldsInductionOn {motive : JFields → Prop} (h0 : motive .nil)
    (h1 : ∀ k v t, motive t → motive (.cons k v t)) : ∀ fs, motive fs
  | .nil => h0
  | .cons k v t => h1 k v t (fieldsInductionOn h0 h1 t)

/-- Structural induction for `JList` alone. -/
theorem JList.listInductionOn {motive : JList → Prop} (h0 : motive .nil)
    (h1 : ∀ v t, motive t → motive (.cons v t)) : ∀ l, motive l
  | .nil => h0
  | .cons v t => h1 v t (listInductionOn h0 h1 t)

theorem JFields.lookup_set_self (fs : JFields) (k : String) (x : JValue) :
    (fs.set k x).lookup k = some x := by
  induction fs using JFields.fieldsInductionOn with
  | h0 => simp [JFields.set, JFields.lookup]
  | h1 k' v t ih =>
    by_cases h : k' = k <;> simp [JFields.set, JFields.lookup, h, ih]

theorem JFields.lookup_set_ne (fs : JFields) (k k' : String) (x : JValue) (h : k' ≠ k) :
    (fs.set k x).lookup k' = fs.lookup k' := by
  induction fs using JFields.fieldsInductionOn with
  | h0 =>
    simp only [JFields.set, JFields.lookup]
    rw [if_neg (Ne.symm h)]
  | h1 k'' v t ih =>
    simp only [JFields.set]
    by_cases h2 : k'' = k
    · rw [if_pos h2]
      subst h2
      simp only [JFields.lookup]
      rw [if_neg (Ne.symm h), if_neg (Ne.symm h)]
    · rw [if_neg h2]
      simp only [JFields.lookup]
      by_cases h3 : k'' = k'
      · rw [if_pos h3, if_pos h3]
      · rw [if_neg h3, if_neg h3]
        exact ih

theorem JFields.lookup_erase_ne (fs : JFields) (k k' : String) (h : k' ≠ k) :
    (fs.erase k).lookup k' = fs.lookup k' := by
  induction fs using JFields.fieldsInductionOn with
  | h0 => simp [JFields.erase, JFields.lookup]
  | h1 k'' v t ih =>
    simp only [JFields.erase]
    by_cases h2 : k'' = k
    · rw [if_pos h2]
      subst h2
      simp only [JFields.lookup]
      rw [if_neg (Ne.symm h)]
    · rw [if_neg h2]
      simp only [JFields.lookup]
      by_cases h3 : k'' = k'
      · rw [if_pos h3, if_pos h3]
      · rw [if_neg h3, if_neg h3]
        exact ih

theorem JFields.erase_of_lookup_none (fs : JFields) (k : String) (h : fs.lookup k = none) :
    fs.erase k = fs := by
  induction fs using JFields.fieldsInductionOn with
  | h0 => simp [JFields.erase]
  | h1 k' v t ih =>
    by_cases h2 : k' = k
    · simp [JFields.lookup, h2] at h
    · simp [JFields.lookup, h2] at h
      simp [JFields.erase, h2, ih h]

theorem JFields.lookup_none_of_not_hasKey (fs : JFields) (k : String)
    (h : fs.hasKey k = false) : fs.lookup k = none := by
  induction fs using JFields.fieldsInductionOn with
  | h0 => simp [JFields.lookup]
  | h1 k' v t ih =>
    simp only [JFields.hasKey, Bool.or_eq_false_iff, decide_eq_false_iff_not] at h
    simp only [JFields.lookup]
    rw [if_neg h.1]
    exact ih h.2

theorem isObjCtor_setProp (v : JValue) (k : String) (x : JValue) (h : isObjCtor v = true) :
    isObjCtor (setProp v k x) = true := by
  cases v <;> simp_all [setProp, isObjCtor]

theorem getProp_setProp_self (v : JValue) (k : String) (x : JValue) (h : isObjCtor v = true) :
    getProp (setProp v k x) k = some x := by
  cases v <;> simp_all [setProp, isObjCtor, getProp, JFields.lookup_set_self]

theorem getProp_setProp_ne (v : JValue) (k k' : String) (x : JValue) (h : isObjCtor v = true)
    (hne : k' ≠ k) : getProp (setProp v k x) k' = getProp v k' := by
  cases v <;> simp_all [setProp, isObjCtor, getProp, JFields.lookup_set_ne _ _ _ _ hne]

theorem mergeFields_cons (result base : JValue) (k : String) (pv : JValue) (rest : JFields) :
    mergeFields result base (.cons k pv rest) =
      mergeFields (setProp result k (mergeValDef (getProp base k) pv)) base rest := by
  cases h : getProp base k <;>
    simp only [mergeFields, mergeValDef, h, apply_ite (setProp result k)]

theorem isObjCtor_mergeFields (pf : JFields) : ∀ (result base : JValue),
    isObjCtor result = true → isObjCtor (mergeFields result base pf) = true := by
  induction pf using JFields.fieldsInductionOn with
  | h0 => intro result base h; simpa [mergeFields] using h
  | h1 k pv rest ih =>
    intro result base h
    rw [mergeFields_cons]
    exact ih _ base (isObjCtor_setProp _ _ _ h)

theorem getProp_mergeFields (pf : JFields) : ∀ (result base : JValue) (k : String),
    isObjCtor result = true → pf.nodupKeys = true →
    getProp (mergeFields result base pf) k =
      (match pf.lookup k with
       | some pv => some (mergeValDef (getProp base k) pv)
       | none => getProp result k) := by
  induction pf using JFields.fieldsInductionOn with
  | h0 => intro result base k _ _; simp [mergeFields, JFields.lookup]
  | h1 k' pv rest ih =>
    intro result base k hres hnd
    simp only [JFields.nodupKeys, Bool.and_eq_true, Bool.not_eq_true'] at hnd
    rw [mergeFields_cons,
      ih (setProp result k' (mergeValDef (getProp base k') pv)) base k
        (isObjCtor_setProp _ _ _ hres) hnd.2]
    by_cases h : k' = k
    · subst h
      rw [JFields.lookup_none_of_not_hasKey rest k' hnd.1]
      simp [JFields.lookup, getProp_setProp_self _ _ _ hres]
    · simp [JFields.lookup, h, getProp_setProp_ne _ _ _ _ hres (fun hh => h hh.symm)]

theorem deepMerge_obj_obj (bf pf : JFields) :
    deepMerge (.obj bf) (.obj pf) = mergeFields (.obj bf) (.obj bf) pf := by
  simp [deepMerge, copyBase]

theorem isObjCtor_deepMerge_obj (bf pf : JFields) :
    isObjCtor (deepMerge (.obj bf) (.obj pf)) = true := by
  rw [deepMerge_obj_obj]; exact isObjCtor_mergeFields pf _ _ rfl

theorem getProp_deepMerge_obj (bf pf : JFields) (k : String) (hnd : pf.nodupKeys = true) :
    getProp (deepMerge (.obj bf) (.obj pf)) k =
      (match pf.lookup k with
       | some pv => some (mergeValDef (bf.lookup k) pv)
       | none => bf.lookup k) := by
  rw [deepMerge_obj_obj,
    getProp_mergeFields pf (.obj bf) (.obj bf) k (show isObjCtor (JValue.obj bf) = true from rfl) hnd]
  rfl

/-! ## Leaf-path precedence through `deepMerge` -/

theorem okAt_cons_elim (v : JValue) (k : String) (ks : List String)
    (h : okAt (some v) (k :: ks) = true) :
    ∃ fs, v = .obj fs ∧ fs.nodupKeys = true ∧ okAt (fs.lookup k) ks = true := by
  cases v <;> simp only [okAt] at h
  case obj fs =>
    exact ⟨fs, rfl, by simpa using (Bool.and_eq_true _ _).mp h⟩
  all_goals cases h

theorem mergeValDef_of_not_obj (bv : Option JValue) (pv : JValue) (h : isObjCtor pv = false) :
    mergeValDef bv pv = pv := by
  cases bv with
  | none => rfl
  | some b => cases pv <;> simp_all [mergeValDef, isObjCtor, isObjType, isArr, truthy]

theorem mergeValDef_obj_obj (bvf pvf : JFields) :
    mergeValDef (some (.obj bvf)) (.obj pvf) = deepMerge (.obj bvf) (.obj pvf) := by
  simp [mergeValDef, truthy, isObjType, isArr]

theorem lookupPath_single (v : JValue) (k : String) : lookupPath v [k] = getProp v k := by
  cases h : getProp v k <;> simp [lookupPath, h]

theorem firstSet_none_right (x : Option JValue) : firstSet x none = x := by
  cases x <;> rfl

theorem lookupPath_deepMerge : ∀ (ks : List String) (k : String) (base patch : JValue),
    okAt (some base) (k :: ks) = true → okAt (some patch) (k :: ks) = true →
    lookupPath (deepMerge base patch) (k :: ks) =
      firstSet (lookupPath patch (k :: ks)) (lookupPath base (k :: ks)) := by
  intro ks
  induction ks with
  | nil =>
    intro k base patch hb hp
    obtain ⟨bf, rfl, _, hbk⟩ := okAt_cons_elim base k [] hb
    obtain ⟨pf, rfl, hpnd, hpk⟩ := okAt_cons_elim patch k [] hp
    rw [lookupPath_single, lookupPath_single, lookupPath_single,
      getProp_deepMerge_obj bf pf k hpnd]
    cases hpv : pf.lookup k with
    | none => simp [firstSet, getProp, hpv]
    | some pv =>
      have hleaf : isObjCtor pv = false := by
        rw [hpv] at hpk
        simpa [okAt] using hpk
      simp [getProp, hpv, mergeValDef_of_not_obj _ _ hleaf, firstSet]
  | cons k2 ks2 ih =>
    intro k base patch hb hp
    obtain ⟨bf, rfl, _, hbk⟩ := okAt_cons_elim base k (k2 :: ks2) hb
    obtain ⟨pf, rfl, hpnd, hpk⟩ := okAt_cons_elim patch k (k2 :: ks2) hp
    have lhs : lookupPath (deepMerge (.obj bf) (.obj pf)) (k :: k2 :: ks2) =
        match getProp (deepMerge (.obj bf) (.obj pf)) k with
        | some w => lookupPath w (k2 :: ks2)
        | none => none := rfl
    rw [lhs, getProp_deepMerge_obj bf pf k hpnd]
    cases hpv : pf.lookup k with
    | none =>
      simp only [lookupPath, getProp, hpv, firstSet]
    | some pv =>
      cases hbv : bf.lookup k with
      | none =>
        have : mergeValDef none pv = pv := rfl
        simp only [this, lookupPath, getProp, hpv, hbv]
        rw [firstSet_none_right]
      | some bv =>
        rw [hpv] at hpk
        rw [hbv] at hbk
        obtain ⟨bvf, rfl, _, _⟩ := okAt_cons_elim bv k2 ks2 hbk
        obtain ⟨pvf, rfl, _, _⟩ := okAt_cons_elim pv k2 ks2 hpk
        simp only [mergeValDef_obj_obj, lookupPath, getProp, hpv, hbv]
        exact ih k2 _ _ hbk hpk

theorem JFields.hasKey_set (fs : JFields) (k : String) (x : JValue) (k' : String) :
    ((fs.set k x).hasKey k') = (fs.hasKey k' || k = k') := by
  induction fs using JFields.fieldsInductionOn with
  | h0 => simp [JFields.set, JFields.hasKey]
  | h1 k'' v t ih =>
    by_cases h : k'' = k
    · subst h
      by_cases h2 : k'' = k' <;> simp [JFields.set, JFields.hasKey, h2]
    · by_cases h2 : k'' = k'
      · subst h2
        simp [JFields.set, JFields.hasKey, h]
      · simp [JFields.set, JFields.hasKey, h, h2, ih, Bool.or_assoc]

theorem JFields.nodupKeys_set (fs : JFields) (k : String) (x : JValue)
    (h : fs.nodupKeys = true) : (fs.set k x).nodupKeys = true := by
  induction fs using JFields.fieldsInductionOn with
  | h0 => simp [JFields.set, JFields.nodupKeys, JFields.hasKey]
  | h1 k' v t ih =>
    simp only [JFields.nodupKeys, Bool.and_eq_true, Bool.not_eq_true'] at h
    by_cases h2 : k' = k
    · subst h2
      simp [JFields.set, JFields.nodupKeys, h.1, h.2]
    · simp only [JFields.set, if_neg h2, JFields.nodupKeys, Bool.and_eq_true, Bool.not_eq_true']
      refine ⟨?_, ih h.2⟩
      rw [JFields.hasKey_set]
      simp only [h.1, Bool.false_or, decide_eq_false_iff_not]
      exact fun hh => h2 hh.symm

theorem mergeFields_obj_nodup (pf : JFields) : ∀ (rf : JFields) (base : JValue),
    rf.nodupKeys = true →
    ∃ rf', mergeFields (.obj rf) base pf = .obj rf' ∧ rf'.nodupKeys = true := by
  induction pf using JFields.fieldsInductionOn with
  | h0 => intro rf base h; exact ⟨rf, rfl, h⟩
  | h1 k pv rest ih =>
    intro rf base h
    rw [mergeFields_cons]
    exact ih (rf.set k (mergeValDef (getProp base k) pv)) base (JFields.nodupKeys_set _ _ _ h)

theorem okAt_deepMerge : ∀ (ks : List String) (k : String) (base patch : JValue),
    okAt (some base) (k :: ks) = true → okAt (some patch) (k :: ks) = true →
    okAt (some (deepMerge base patch)) (k :: ks) = true := by
  intro ks
  induction ks with
  | nil =>
    intro k base patch hb hp
    obtain ⟨bf, rfl, hbnd, hbk⟩ := okAt_cons_elim _ _ _ hb
    obtain ⟨pf, rfl, hpnd, hpk⟩ := okAt_cons_elim _ _ _ hp
    rw [deepMerge_obj_obj]
    obtain ⟨mf, hmf, hmnd⟩ := mergeFields_obj_nodup pf bf (.obj bf) hbnd
    rw [hmf]
    simp only [okAt, hmnd, Bool.true_and]
    have hlk : JFields.lookup k mf = getProp (mergeFields (.obj bf) (.obj bf) pf) k := by
      rw [hmf]; rfl
    rw [hlk, getProp_mergeFields pf (.obj bf) (.obj bf) k
      (show isObjCtor (JValue.obj bf) = true from rfl) hpnd]
    cases hpv : pf.lookup k with
    | none => simpa [getProp] using hbk
    | some pv =>
      have hleaf : isObjCtor pv = false := by
        rw [hpv] at hpk; simpa [okAt] using hpk
      simp [mergeValDef_of_not_obj _ _ hleaf, okAt, hleaf]
  | cons k2 ks2 ih =>
    intro k base patch hb hp
    obtain ⟨bf, rfl, hbnd, hbk⟩ := okAt_cons_elim _ _ _ hb
    obtain ⟨pf, rfl, hpnd, hpk⟩ := okAt_cons_elim _ _ _ hp
    rw [deepMerge_obj_obj]
    obtain ⟨mf, hmf, hmnd⟩ := mergeFields_obj_nodup pf bf (.obj bf) hbnd
    rw [hmf]
    simp only [okAt, hmnd, Bool.true_and]
    have hlk : JFields.lookup k mf = getProp (mergeFields (.obj bf) (.obj bf) pf) k := by
      rw [hmf]; rfl
    rw [hlk, getProp_mergeFields pf (.obj bf) (.obj bf) k
      (show isObjCtor (JValue.obj bf) = true from rfl) hpnd]
    cases hpv : pf.lookup k with
    | none => simpa [getProp] using hbk
    | some pv =>
      rw [hpv] at hpk
      cases hbv : bf.lookup k with
      | none =>
        have : getProp (JValue.obj bf) k = none := hbv
        simpa [this, mergeValDef] using hpk
      | some bv =>
        rw [hbv] at hbk
        obtain ⟨bvf, rfl, _, _⟩ := okAt_cons_elim _ _ _ hbk
        obtain ⟨pvf, rfl, _, _⟩ := okAt_cons_elim _ _ _ hpk
        have : getProp (JValue.obj bf) k = some (.obj bvf) := hbv
        simp only [this, mergeValDef_obj_obj]
        exact ih k2 _ _ hbk hpk

/-! ## Path composition lemmas -/

theorem dropWhile_idem {α : Type} (p : α → Bool) (l : List α) :
    (l.dropWhile p).dropWhile p = l.dropWhile p := by
  induction l with
  | nil => rfl
  | cons c t ih =>
    by_cases h : p c = true
    · simp [List.dropWhile_cons, h, ih]
    · simp [List.dropWhile_cons, h]

theorem dropWhile_append_singleton {α : Type} (p : α → Bool) (c : α) (h : p c = false) :
    ∀ (xs : List α), (xs ++ [c]).dropWhile p = xs.dropWhile p ++ [c] := by
  intro xs
  induction xs with
  | nil => simp [List.dropWhile_cons, h]
  | cons x t ih =>
    by_cases h2 : p x = true <;> simp [List.dropWhile_cons, h2, ih]

theorem jsTrim_mem {x : Char} {l : List Char} (h : x ∈ jsTrim l) : x ∈ l := by
  unfold jsTrim at h
  rw [List.mem_reverse] at h
  have h2 := (List.dropWhile_sublist _).mem h
  rw [List.mem_reverse] at h2
  exact (List.dropWhile_sublist _).mem h2

theorem jsTrim_idem (l : List Char) : jsTrim (jsTrim l) = jsTrim l := by
  cases ha : l.dropWhile Char.isWhitespace with
  | nil =>
    have h0 : jsTrim l = [] := by unfold jsTrim; rw [ha]; rfl
    rw [h0]
    rfl
  | cons c t =>
    have hc : c.isWhitespace = false := by
      have hidem := dropWhile_idem Char.isWhitespace l
      rw [ha] at hidem
      by_contra hcon
      rw [Bool.not_eq_false] at hcon
      rw [List.dropWhile_cons, if_pos hcon] at hidem
      have hlen := congrArg List.length hidem
      have hle : (t.dropWhile Char.isWhitespace).length ≤ t.length :=
        (List.dropWhile_sublist _).length_le
      simp only [List.length_cons] at hlen
      omega
    have hform : jsTrim l = c :: (t.reverse.dropWhile Char.isWhitespace).reverse := by
      unfold jsTrim
      rw [ha]
      rw [show (c :: t).reverse = t.reverse ++ [c] by simp]
      rw [dropWhile_append_singleton _ _ hc]
      simp
    rw [hform]
    unfold jsTrim
    rw [List.dropWhile_cons, if_neg (by simp [hc])]
    rw [show (c :: (t.reverse.dropWhile Char.isWhitespace).reverse).reverse
        = t.reverse.dropWhile Char.isWhitespace ++ [c] by simp]
    rw [dropWhile_append_singleton _ _ hc, dropWhile_idem]
    simp

theorem jsSplit_ne_nil (sep : Char) (l : List Char) : jsSplit sep l ≠ [] := by
  induction l with
  | nil => simp [jsSplit]
  | cons c t ih =>
    by_cases h : c = sep
    · simp [jsSplit, h]
    · simp only [jsSplit, if_neg h]
      cases hs : jsSplit sep t with
      | nil => exact absurd hs ih
      | cons s ss => simp

theorem mem_jsSplit_not_sep (sep : Char) (l : List Char) :
    ∀ x ∈ jsSplit sep l, sep ∉ x := by
  induction l with
  | nil =>
    intro x hx
    simp [jsSplit] at hx
    simp [hx]
  | cons c t ih =>
    intro x hx
    by_cases h : c = sep
    · rw [jsSplit, if_pos h] at hx
      rcases List.mem_cons.mp hx with h2 | h2
      · simp [h2]
      · exact ih x h2
    · rw [jsSplit, if_neg h] at hx
      cases hs : jsSplit sep t with
      | nil => exact absurd hs (jsSplit_ne_nil sep t)
      | cons s ss =>
        rw [hs] at hx
        rcases List.mem_cons.mp hx with h2 | h2
        · subst h2
          intro hmem
          rcases List.mem_cons.mp hmem with h3 | h3
          · exact h h3.symm
          · exact ih s (hs ▸ List.mem_cons_self s ss) h3
        · exact ih x (hs ▸ List.mem_cons.mpr (Or.inr h2))

theorem jsSplit_sepFree (sep : Char) (l : List Char) (h : sep ∉ l) : jsSplit sep l = [l] := by
  induction l with
  | nil => rfl
  | cons c t ih =>
    have hc : c ≠ sep := fun hh => h (hh ▸ List.mem_cons_self c t)
    have ht : sep ∉ t := fun hh => h (List.mem_cons.mpr (Or.inr hh))
    rw [jsSplit, if_neg hc, ih ht]

theorem jsSplit_append (sep : Char) (s t : List Char) (h : sep ∉ s) :
    jsSplit sep (s ++ sep :: t) = s :: jsSplit sep t := by
  induction s with
  | nil => simp [jsSplit]
  | cons c s' ih =>
    have hc : c ≠ sep := fun hh => h (hh ▸ List.mem_cons_self c s')
    have hs : sep ∉ s' := fun hh => h (List.mem_cons.mpr (Or.inr hh))
    rw [List.cons_append, jsSplit, if_neg hc, ih hs]

theorem jsSplit_join (segs : List (List Char)) (h : ∀ x ∈ segs, '/' ∉ x) (hne : segs ≠ []) :
    jsSplit '/' (jsJoin '/' segs) = segs := by
  induction segs with
  | nil => exact absurd rfl hne
  | cons s t ih =>
    cases t with
    | nil => exact jsSplit_sepFree '/' s (h s (List.mem_cons_self s []))
    | cons s2 t2 =>
      have hjoin : jsJoin '/' (s :: s2 :: t2) = s ++ '/' :: jsJoin '/' (s2 :: t2) := rfl
      rw [hjoin, jsSplit_append '/' s _ (h s (List.mem_cons_self s _)),
        ih (fun x hx => h x (List.mem_cons.mpr (Or.inr hx))) (by simp)]

theorem segsOf_props (ls : List (List Char)) (hsf : ∀ y ∈ ls, '/' ∉ y) :
    ∀ x ∈ (ls.map jsTrim).filter (fun s => s ≠ []), x ≠ [] ∧ '/' ∉ x ∧ jsTrim x = x := by
  intro x hx
  rw [List.mem_filter] at hx
  obtain ⟨hmem, hne⟩ := hx
  rw [List.mem_map] at hmem
  obtain ⟨y, hy, rfl⟩ := hmem
  refine ⟨by simpa using hne, ?_, jsTrim_idem y⟩
  intro hs
  exact hsf y hy (jsTrim_mem hs)

theorem segsOf_elem_props (s : String) :
    ∀ x ∈ segsOf s, x ≠ [] ∧ '/' ∉ x ∧ jsTrim x = x :=
  segsOf_props (jsSplit '/' s.data) (mem_jsSplit_not_sep '/' s.data)

theorem preSegs_elem_props (o : Option JValue) :
    ∀ x ∈ preSegs o, x ≠ [] ∧ '/' ∉ x ∧ jsTrim x = x := by
  unfold preSegs
  cases ho : o.bind (fun v => getProp v "prefix") with
  | none => intro x hx; simp at hx
  | some v =>
    cases v <;> intro x hx <;> first
      | exact segsOf_elem_props _ x hx
      | simp at hx

theorem getOperationPath_data (p : String) (o : Option JValue) :
    (getOperationPath p o).data = '/' :: jsJoin '/' (preSegs o ++ segsOf p) := by
  unfold getOperationPath preSegs segsOf
  cases ho : o.bind (fun v => getProp v "prefix") with
  | none => simp [ho]
  | some v => cases v <;> simp [ho, List.filter_append]

theorem segsOf_mk_join (S : List (List Char)) (hp : ∀ x ∈ S, x ≠ [] ∧ '/' ∉ x ∧ jsTrim x = x) :
    segsOf ⟨'/' :: jsJoin '/' S⟩ = S := by
  show ((jsSplit '/' ('/' :: jsJoin '/' S)).map jsTrim).filter (fun s => s ≠ []) = S
  rw [jsSplit, if_pos rfl]
  cases S with
  | nil => rfl
  | cons s rest =>
    rw [jsSplit_join _ (fun x hx => (hp x hx).2.1) (by simp),
      List.map_cons, show jsTrim [] = [] from rfl,
      List.map_congr_left (g := fun x => x) (fun x hx => (hp x hx).2.2)]
    have hid : List.map (fun x : List Char => x) (s :: rest) = s :: rest := List.map_id' _
    rw [hid, List.filter_cons]
    simp only [ne_eq, not_true_eq_false, decide_False, Bool.false_eq_true, if_false]
    exact List.filter_eq_self.mpr (fun x hx => by simpa using (hp x hx).1)

theorem segsOf_getOperationPath (p : String) (o : Option JValue) :
    segsOf (getOperationPath p o) = preSegs o ++ segsOf p := by
  have hprops : ∀ x ∈ preSegs o ++ segsOf p, x ≠ [] ∧ '/' ∉ x ∧ jsTrim x = x := by
    intro x hx
    rcases List.mem_append.mp hx with hx | hx
    · exact preSegs_elem_props o x hx
    · exact segsOf_elem_props p x hx
  have heq : getOperationPath p o = ⟨'/' :: jsJoin '/' (preSegs o ++ segsOf p)⟩ := by
    cases hgp : getOperationPath p o with
    | mk d =>
      have := getOperationPath_data p o
      rw [hgp] at this
      exact congrArg String.mk this
  rw [heq, segsOf_mk_join _ hprops]

theorem countSlash_join (segs : List (List Char)) (h : ∀ x ∈ segs, '/' ∉ x) :
    countSlash (jsJoin '/' segs) = segs.length - 1 := by
  induction segs with
  | nil => rfl
  | cons s t ih =>
    cases t with
    | nil =>
      show (jsJoin '/' [s]).count '/' = 0
      exact List.count_eq_zero.mpr (h s (List.mem_cons_self s []))
    | cons s2 t2 =>
      have hj : jsJoin '/' (s :: s2 :: t2) = s ++ '/' :: jsJoin '/' (s2 :: t2) := rfl
      have hs0 : s.count '/' = 0 := List.count_eq_zero.mpr (h s (List.mem_cons_self s _))
      have hrest := ih (fun x hx => h x (List.mem_cons.mpr (Or.inr hx)))
      unfold countSlash at hrest ⊢
      rw [hj, List.count_append, hs0, List.count_cons_self, hrest]
      simp only [List.length_cons]
      omega

theorem countSlash_getOperationPath (p : String) (o : Option JValue) :
    countSlash (getOperationPath p o).data = 1 + ((preSegs o ++ segsOf p).length - 1) := by
  rw [getOperationPath_data]
  have hsf : ∀ x ∈ preSegs o ++ segsOf p, '/' ∉ x := by
    intro x hx
    rcases List.mem_append.mp hx with hx | hx
    · exact (preSegs_elem_props o x hx).2.1
    · exact (segsOf_elem_props p x hx).2.1
  have hjoin := countSlash_join _ hsf
  unfold countSlash at hjoin ⊢
  rw [List.count_cons_self, hjoin]
  omega

theorem countSlash_rp (l : List Char) : ∀ st, countSlash (rp st l) = countSlash l := by
  induction l with
  | nil => intro st; cases st <;> rfl
  | cons c t ih =>
    intro st
    have hlb : ('/' : Char) ≠ '{' := by decide
    have hrb : ('/' : Char) ≠ '}' := by decide
    have hco : ('/' : Char) ≠ ':' := by decide
    cases st with
    | plain =>
      by_cases h : c = ':'
      · subst h
        show countSlash (rp .sawColon t) = countSlash (':' :: t)
        unfold countSlash at ih ⊢
        rw [List.count_cons_of_ne hco, ih .sawColon]
      · show countSlash (if c = ':' then rp .sawColon t else c :: rp .plain t) = _
        rw [if_neg h]
        unfold countSlash at ih ⊢
        rw [List.count_cons, List.count_cons, ih .plain]
    | sawColon =>
      show countSlash
          (if isIdentStart c then '{' :: c :: rp .inParam t
           else if c = ':' then ':' :: rp .sawColon t
           else ':' :: c :: rp .plain t) = countSlash (c :: t)
      unfold countSlash at ih ⊢
      by_cases h1 : isIdentStart c
      · rw [if_pos h1, List.count_cons_of_ne hlb, List.count_cons, List.count_cons,
          ih .inParam]
      · rw [if_neg h1]
        by_cases h2 : c = ':'
        · subst h2
          rw [if_pos rfl, List.count_cons_of_ne hco, List.count_cons_of_ne hco,
            ih .sawColon]
        · rw [if_neg h2, List.count_cons_of_ne hco, List.count_cons, List.count_cons,
            ih .plain]
    | inParam =>
      show countSlash
          (if isIdentChar c then c :: rp .inParam t
           else if c = ':' then '}' :: rp .sawColon t
           else '}' :: c :: rp .plain t) = countSlash (c :: t)
      unfold countSlash at ih ⊢
      by_cases h1 : isIdentChar c
      · rw [if_pos h1, List.count_cons, List.count_cons, ih .inParam]
      · rw [if_neg h1]
        by_cases h2 : c = ':'
        · subst h2
          rw [if_pos rfl, List.count_cons_of_ne hrb, List.count_cons_of_ne hco,
            ih .sawColon]
        · rw [if_neg h2, List.count_cons_of_ne hrb, List.count_cons, List.count_cons,
            ih .plain]

theorem countSlash_replacePath (q : String) :
    countSlash (replacePathWithOpenApiParams q).data = countSlash q.data := by
  show countSlash (rp .plain q.data) = countSlash q.data
  exact countSlash_rp q.data .plain

theorem preSegs_ne_nil_of_prefixHasSeg (o : JValue) (hpre : prefixHasSeg o = true) :
    preSegs (some o) ≠ [] := by
  unfold prefixHasSeg at hpre
  unfold preSegs
  rw [show (some o).bind (fun v => getProp v "prefix") = getProp o "prefix" from rfl]
  cases hp : getProp o "prefix" with
  | none => rw [hp] at hpre; cases hpre
  | some v =>
    rw [hp] at hpre
    cases v <;> exact of_decide_eq_true hpre

/-- With a prefix carrying at least one real segment, the path `initialize`
registers with the server (the stored path composed with the prefix a second
time) differs from the path the specification document uses (the stored path
in brace form): they have different numbers of `/`. -/
theorem doublePrefix_ne (raw : String) (o : JValue) (hpre : prefixHasSeg o = true) :
    getOperationPath (getOperationPath raw (some o)) (some o) ≠
      replacePathWithOpenApiParams (getOperationPath raw (some o)) := by
  have ha := preSegs_ne_nil_of_prefixHasSeg o hpre
  intro heq
  have hcount := congrArg (fun s : String => countSlash s.data) heq
  simp only at hcount
  rw [countSlash_getOperationPath, countSlash_replacePath, countSlash_getOperationPath,
    segsOf_getOperationPath] at hcount
  have hlen : 1 ≤ (preSegs (some o)).length := List.length_pos.mpr ha
  simp only [List.length_append] at hcount
  omega

/-! ## Specification assembly lemmas -/

theorem Method.key_inj : ∀ (m1 m2 : Method), m1.key = m2.key → m1 = m2 := by
  intro m1 m2 h
  cases m1 <;> cases m2 <;> first | rfl | exact absurd h (by decide)

theorem isObjCtor_processRoute (st : RouterState) (paths : JValue) (r : Route)
    (h : isObjCtor paths = true) : isObjCtor (processRoute st paths r) = true := by
  unfold processRoute
  by_cases he : routeExcluded r
  · rw [if_pos he]; exact h
  · rw [if_neg he]
    by_cases hemp : jsEmptyKeys (routeEntry st r
        (match getProp paths (replacePathWithOpenApiParams r.path) with
         | some v => if truthy v then v else .obj .nil
         | none => .obj .nil))
    · rw [if_pos hemp]
      cases paths <;> simp_all [isObjCtor]
    · rw [if_neg hemp]
      exact isObjCtor_setProp _ _ _ h

theorem getProp_processRoute_ne (st : RouterState) (paths : JValue) (r : Route) (k : String)
    (hobj : isObjCtor paths = true) (hk : k ≠ docKey r) :
    getProp (processRoute st paths r) k = getProp paths k := by
  unfold processRoute
  by_cases he : routeExcluded r
  · rw [if_pos he]
  · rw [if_neg he]
    by_cases hemp : jsEmptyKeys (routeEntry st r
        (match getProp paths (replacePathWithOpenApiParams r.path) with
         | some v => if truthy v then v else .obj .nil
         | none => .obj .nil))
    · rw [if_pos hemp]
      cases paths <;> simp_all [isObjCtor]
      exact JFields.lookup_erase_ne _ _ _ hk
    · rw [if_neg hemp]
      exact getProp_setProp_ne _ _ _ _ hobj hk

theorem getProp_foldProcess_not_mem (st : RouterState) (rs : List Route) :
    ∀ (A : JValue) (k : String), isObjCtor A = true → (∀ r ∈ rs, k ≠ docKey r) →
    getProp (rs.foldl (processRoute st) A) k = getProp A k := by
  induction rs with
  | nil => intro A k _ _; rfl
  | cons r rest ih =>
    intro A k hobj hk
    rw [List.foldl_cons,
      ih (processRoute st A r) k (isObjCtor_processRoute st A r hobj)
        (fun r' hr' => hk r' (List.mem_cons.mpr (Or.inr hr'))),
      getProp_processRoute_ne st A r k hobj (hk r (List.mem_cons_self r rest))]

theorem getProp_processRoute_self (st : RouterState) (A : JValue) (r : Route)
    (hobj : isObjCtor A = true) (hA : getProp A (docKey r) = none) :
    getProp (processRoute st A r) (docKey r) =
      (if routeExcluded r then none
       else if jsEmptyKeys (routeEntry st r (.obj .nil)) then none
       else some (routeEntry st r (.obj .nil))) := by
  unfold processRoute
  have hinit : (match getProp A (replacePathWithOpenApiParams r.path) with
      | some v => if truthy v then v else JValue.obj .nil
      | none => JValue.obj .nil) = JValue.obj .nil := by
    rw [show replacePathWithOpenApiParams r.path = docKey r from rfl, hA]
  by_cases he : routeExcluded r
  · rw [if_pos he, if_pos he]
    exact hA
  · rw [if_neg he, if_neg he]
    dsimp only
    rw [hinit]
    by_cases hemp : jsEmptyKeys (routeEntry st r (.obj .nil))
    · rw [if_pos hemp, if_pos hemp]
      cases A <;> simp_all [isObjCtor]
      rw [show replacePathWithOpenApiParams r.path = docKey r from rfl,
        JFields.erase_of_lookup_none _ _ hA]
      exact hA
    · rw [if_neg hemp, if_neg hemp]
      exact getProp_setProp_self _ _ _ hobj

theorem getProp_foldProcess (st : RouterState) (rs : List Route) :
    ∀ (A : JValue) (r : Route), isObjCtor A = true → r ∈ rs →
    (rs.map docKey).Nodup → getProp A (docKey r) = none →
    getProp (rs.foldl (processRoute st) A) (docKey r) =
      (if routeExcluded r then none
       else if jsEmptyKeys (routeEntry st r (.obj .nil)) then none
       else some (routeEntry st r (.obj .nil))) := by
  induction rs with
  | nil => intro A r _ hmem; cases hmem
  | cons r' rest ih =>
    intro A r hobj hmem hnd hA
    rw [List.map_cons, List.nodup_cons] at hnd
    rcases List.mem_cons.mp hmem with rfl | hmem'
    · rw [List.foldl_cons,
        getProp_foldProcess_not_mem st rest (processRoute st A r) (docKey r)
          (isObjCtor_processRoute st A r hobj)
          (fun r'' hr'' hh => hnd.1 (hh ▸ List.mem_map.mpr ⟨r'', hr'', rfl⟩)),
        getProp_processRoute_self st A r hobj hA]
    · have hne : docKey r ≠ docKey r' := by
        intro hh
        exact hnd.1 (hh ▸ List.mem_map.mpr ⟨r, hmem', rfl⟩)
      rw [List.foldl_cons]
      exact ih (processRoute st A r') r (isObjCtor_processRoute st A r' hobj) hmem' hnd.2
        (by rw [getProp_processRoute_ne st A r' (docKey r) hobj hne]; exact hA)

theorem routeEntry_all_excluded_aux (st : RouterState) (r : Route) :
    ∀ (ms : List (Method × Operator)) (init : JValue),
    (∀ p ∈ ms, operatorExcluded st r p.2 = true) →
    ms.foldl (fun acc mop =>
      if operatorExcluded st r mop.2 then acc
      else setProp acc mop.1.key (applyModifier st mop.2.specification)) init = init := by
  intro ms
  induction ms with
  | nil => intro init _; rfl
  | cons p rest ih =>
    intro init h
    rw [List.foldl_cons, if_pos (h p (List.mem_cons_self p rest))]
    exact ih init (fun q hq => h q (List.mem_cons.mpr (Or.inr hq)))

theorem routeEntry_all_excluded (st : RouterState) (r : Route)
    (h : ∀ p ∈ r.methods, operatorExcluded st r p.2 = true) :
    routeEntry st r (.obj .nil) = .obj .nil :=
  routeEntry_all_excluded_aux st r r.methods (.obj .nil) h

theorem routeEntry_no_method_aux (st : RouterState) (r : Route) (m : Method) :
    ∀ (ms : List (Method × Operator)) (init : JValue), isObjCtor init = true →
    (∀ p ∈ ms, p.1 ≠ m) →
    getProp (ms.foldl (fun acc mop =>
      if operatorExcluded st r mop.2 then acc
      else setProp acc mop.1.key (applyModifier st mop.2.specification)) init) m.key =
      getProp init m.key := by
  intro ms
  induction ms with
  | nil => intro init _ _; rfl
  | cons p rest ih =>
    intro init hobj h
    rw [List.foldl_cons]
    by_cases he : operatorExcluded st r p.2
    · rw [if_pos he]
      exact ih init hobj (fun q hq => h q (List.mem_cons.mpr (Or.inr hq)))
    · rw [if_neg he]
      rw [ih _ (isObjCtor_setProp _ _ _ hobj) (fun q hq => h q (List.mem_cons.mpr (Or.inr hq)))]
      exact getProp_setProp_ne _ _ _ _ hobj
        (fun hh => h p (List.mem_cons_self p rest) (Method.key_inj _ _ hh.symm))

theorem routeEntry_excluded_lookup_aux (st : RouterState) (r : Route) (m : Method)
    (op : Operator) :
    ∀ (ms : List (Method × Operator)) (init : JValue), isObjCtor init = true →
    (ms.map Prod.fst).Nodup → (m, op) ∈ ms → operatorExcluded st r op = true →
    getProp (ms.foldl (fun acc mop =>
      if operatorExcluded st r mop.2 then acc
      else setProp acc mop.1.key (applyModifier st mop.2.specification)) init) m.key =
      getProp init m.key := by
  intro ms
  induction ms with
  | nil => intro init _ _ hmem; cases hmem
  | cons p rest ih =>
    intro init hobj hnd hmem hexc
    rw [List.map_cons, List.nodup_cons] at hnd
    rcases List.mem_cons.mp hmem with rfl | hmem'
    · rw [List.foldl_cons, if_pos hexc]
      exact routeEntry_no_method_aux st r m rest init hobj
        (fun q hq hh => hnd.1 (hh ▸ List.mem_map.mpr ⟨q, hq, rfl⟩))
    · have hne : p.1 ≠ m := by
        intro hh
        exact hnd.1 (hh ▸ List.mem_map.mpr ⟨(m, op), hmem', rfl⟩)
      rw [List.foldl_cons]
      by_cases he : operatorExcluded st r p.2
      · rw [if_pos he]
        exact ih init hobj hnd.2 hmem' hexc
      · rw [if_neg he,
          ih _ (isObjCtor_setProp _ _ _ hobj) hnd.2 hmem' hexc]
        exact getProp_setProp_ne _ _ _ _ hobj
          (fun hh => hne (Method.key_inj _ _ hh.symm))

theorem initialPaths_empty (st : RouterState) (hdoc : isObjCtor st.document = true)
    (hp : getProp st.document "paths" = none) : initialPaths st = .obj .nil := by
  unfold initialPaths
  cases hd : st.document <;> rw [hd] at hdoc hp <;> try cases hdoc
  simp only [spreadToObj]
  rw [show getProp (JValue.obj _) "paths" = JFields.lookup "paths" _ from rfl]
  rw [show getProp (JValue.obj _) "paths" = JFields.lookup "paths" _ from rfl] at hp
  rw [hp]

/-! ## Boolean-shorthand expansion lemmas -/

theorem expandAVFields_lookup (fs : JFields) (k : String) :
    (expandAVFields fs).lookup k =
      if k = "autoValidate" then (fs.lookup k).map expandVal else fs.lookup k := by
  induction fs using JFields.fieldsInductionOn with
  | h0 => by_cases h : k = "autoValidate" <;> simp [expandAVFields, JFields.lookup, h]
  | h1 k' v t ih =>
    by_cases h2 : k' = k
    · subst h2
      by_cases h : k' = "autoValidate" <;>
        simp [expandAVFields, JFields.lookup, h]
    · simp [expandAVFields, JFields.lookup, h2, ih]

theorem expandAVFields_hasKey (fs : JFields) (k : String) :
    JFields.hasKey k (expandAVFields fs) = JFields.hasKey k fs := by
  induction fs using JFields.fieldsInductionOn with
  | h0 => rfl
  | h1 k' v t ih => simp [expandAVFields, JFields.hasKey, ih]

theorem expandAVFields_nodup (fs : JFields) :
    (expandAVFields fs).nodupKeys = fs.nodupKeys := by
  induction fs using JFields.fieldsInductionOn with
  | h0 => rfl
  | h1 k' v t ih => simp [expandAVFields, JFields.nodupKeys, expandAVFields_hasKey, ih]

theorem mergeValDef_bool (x : Option JValue) (b : Bool) :
    mergeValDef x (.bool b) = .bool b := by
  cases x with
  | none => rfl
  | some v => simp [mergeValDef, isObjType]

theorem deepMerge_E_E (b' b : Bool) :
    deepMerge (expandVal (.bool b')) (expandVal (.bool b)) = expandVal (.bool b) := by
  cases b' <;> cases b <;> decide

/-- Whether an optional `autoValidate` value is a boolean or absent. -/
def isBoolishAV : Option JValue → Bool
  | none => true
  | some (.bool _) => true
  | _ => false

/-- Whether an optional `autoValidate` value is absent or of the expanded
object form. -/
def isEishAV : Option JValue → Bool
  | none => true
  | some v => v == expandVal (.bool true) || v == expandVal (.bool false)

theorem isEishAV_map (x : Option JValue) (h : isBoolishAV x = true) :
    isEishAV (x.map expandVal) = true := by
  cases x with
  | none => rfl
  | some v =>
    cases v with
    | bool b => cases b <;> decide
    | null => exact Bool.noConfusion h
    | num n => exact Bool.noConfusion h
    | str s => exact Bool.noConfusion h
    | arr el pr => exact Bool.noConfusion h
    | obj fs => exact Bool.noConfusion h

theorem firstSet_map (f : JValue → JValue) (a b : Option JValue) :
    firstSet (a.map f) (b.map f) = (firstSet a b).map f := by
  cases a <;> rfl

theorem isBoolishAV_firstSet (a b : Option JValue) (ha : isBoolishAV a = true)
    (hb : isBoolishAV b = true) : isBoolishAV (firstSet a b) = true := by
  cases a <;> simp_all [firstSet]

theorem isEishAV_firstSet (a b : Option JValue) (ha : isEishAV a = true)
    (hb : isEishAV b = true) : isEishAV (firstSet a b) = true := by
  cases a <;> simp_all [firstSet, isEishAV]

theorem getProp_deepMerge_objBase (b : JValue) (pf : JFields) (k : String)
    (hb : isObjCtor b = true) (hnd : pf.nodupKeys = true) :
    getProp (deepMerge b (.obj pf)) k =
      (match pf.lookup k with
       | some pv => some (mergeValDef (getProp b k) pv)
       | none => getProp b k) := by
  cases b <;> try cases hb
  exact getProp_deepMerge_obj _ pf k hnd

theorem getProp_deepMerge_av_boolish (b : JValue) (pf : JFields) (hb : isObjCtor b = true)
    (hnd : pf.nodupKeys = true) (hpb : isBoolishAV (pf.lookup "autoValidate") = true) :
    getProp (deepMerge b (.obj pf)) "autoValidate" =
      firstSet (pf.lookup "autoValidate") (getProp b "autoValidate") := by
  rw [getProp_deepMerge_objBase b pf _ hb hnd]
  cases hpv : pf.lookup "autoValidate" with
  | none => rfl
  | some v =>
    rw [hpv] at hpb
    cases v with
    | bool b0 => simp only [mergeValDef_bool]; rfl
    | null => exact Bool.noConfusion hpb
    | num n => exact Bool.noConfusion hpb
    | str s => exact Bool.noConfusion hpb
    | arr el pr => exact Bool.noConfusion hpb
    | obj fs => exact Bool.noConfusion hpb

theorem getProp_deepMerge_av_Eish (b : JValue) (pf : JFields) (hb : isObjCtor b = true)
    (hnd : pf.nodupKeys = true) (hpE : isEishAV (pf.lookup "autoValidate") = true)
    (hbE : isEishAV (getProp b "autoValidate") = true) :
    getProp (deepMerge b (.obj pf)) "autoValidate" =
      firstSet (pf.lookup "autoValidate") (getProp b "autoValidate") := by
  rw [getProp_deepMerge_objBase b pf _ hb hnd]
  cases hpv : pf.lookup "autoValidate" with
  | none => rfl
  | some v =>
    rw [hpv] at hpE
    have hv : v = expandVal (.bool true) ∨ v = expandVal (.bool false) := by
      have h2 : (v == expandVal (.bool true) || v == expandVal (.bool false)) = true := hpE
      rcases (Bool.or_eq_true _ _).mp h2 with h | h
      · exact Or.inl (eq_of_beq h)
      · exact Or.inr (eq_of_beq h)
    cases hbv : getProp b "autoValidate" with
    | none =>
      have hm : mergeValDef none v = v := rfl
      simp only [hm]
      rfl
    | some w =>
      rw [hbv] at hbE
      have hw : w = expandVal (.bool true) ∨ w = expandVal (.bool false) := by
        have h2 : (w == expandVal (.bool true) || w == expandVal (.bool false)) = true := hbE
        rcases (Bool.or_eq_true _ _).mp h2 with h | h
        · exact Or.inl (eq_of_beq h)
        · exact Or.inr (eq_of_beq h)
      have hm : mergeValDef (some w) v = v := by
        rcases hv with rfl | rfl <;> rcases hw with rfl | rfl <;> decide
      simp only [hm]
      rfl

theorem gavc_bool_E (b : Bool) :
    getAutoValidateConfig (some (.bool b)) = getAutoValidateConfig (some (expandVal (.bool b))) := by
  cases b <;> decide

theorem gavc_boolish_map (x : Option JValue) (h : isBoolishAV x = true) :
    getAutoValidateConfig x = getAutoValidateConfig (x.map expandVal) := by
  cases x with
  | none => rfl
  | some v =>
    cases v with
    | bool b => exact gavc_bool_E b
    | null => exact Bool.noConfusion h
    | num n => exact Bool.noConfusion h
    | str s => exact Bool.noConfusion h
    | arr el pr => exact Bool.noConfusion h
    | obj fs => exact Bool.noConfusion h

theorem expandAVFields_no_av (fs : JFields)
    (h : JFields.hasKey "autoValidate" fs = false) : expandAVFields fs = fs := by
  induction fs using JFields.fieldsInductionOn with
  | h0 => rfl
  | h1 k v t ih =>
    simp only [JFields.hasKey, Bool.or_eq_false_iff, decide_eq_false_iff_not] at h
    simp [expandAVFields, h.1, ih h.2]

theorem expandAVFields_objish (fs : JFields) (hnd : fs.nodupKeys = true)
    (h : avObjOrAbsent (some (.obj fs)) = true) : expandAVFields fs = fs := by
  induction fs using JFields.fieldsInductionOn with
  | h0 => rfl
  | h1 k v t ih =>
    simp only [JFields.nodupKeys, Bool.and_eq_true, Bool.not_eq_true'] at hnd
    by_cases hk : k = "autoValidate"
    · have hv : (match (JFields.cons k v t).lookup "autoValidate" with
          | none => true
          | some (.obj _) => true
          | _ => false) = true := h
      rw [show (JFields.cons k v t).lookup "autoValidate" = some v by
        simp [JFields.lookup, hk]] at hv
      have hvv : expandVal v = v := by
        cases v <;> first | rfl | exact Bool.noConfusion hv
      have hnoav : JFields.hasKey "autoValidate" t = false := by
        rw [← hk]; exact hnd.1
      simp [expandAVFields, hk, hvv, expandAVFields_no_av t hnoav]
    · have ht : avObjOrAbsent (some (.obj t)) = true := by
        have hv : (match (JFields.cons k v t).lookup "autoValidate" with
            | none => true
            | some (.obj _) => true
            | _ => false) = true := h
        rw [show (JFields.cons k v t).lookup "autoValidate" = t.lookup "autoValidate" by
          simp [JFields.lookup, hk]] at hv
        exact hv
      simp [expandAVFields, hk, ih hnd.2 ht]

theorem getProp_getOpOptions_expand_ne (opf rof rrf : JFields) (k : String)
    (hop : opf.nodupKeys = true) (hro : rof.nodupKeys = true) (hk : k ≠ "autoValidate") :
    getProp (getOperationOptions (some (.obj opf)) (some (.obj rof)) (some (.obj rrf))) k =
      getProp (getOperationOptions (some (.obj (expandAVFields opf)))
        (some (.obj (expandAVFields rof))) (some (.obj (expandAVFields rrf)))) k := by
  have hinner : getProp (deepMerge (.obj rrf) (.obj rof)) k =
      getProp (deepMerge (.obj (expandAVFields rrf)) (.obj (expandAVFields rof))) k := by
    rw [getProp_deepMerge_obj rrf rof k hro,
      getProp_deepMerge_obj _ _ k (by rw [expandAVFields_nodup]; exact hro),
      expandAVFields_lookup rof k, if_neg hk, expandAVFields_lookup rrf k, if_neg hk]
  show getProp (deepMerge (deepMerge (.obj rrf) (.obj rof)) (.obj opf)) k =
    getProp (deepMerge (deepMerge (.obj (expandAVFields rrf)) (.obj (expandAVFields rof)))
      (.obj (expandAVFields opf))) k
  rw [getProp_deepMerge_objBase _ opf k (isObjCtor_deepMerge_obj rrf rof) hop,
    getProp_deepMerge_objBase _ (expandAVFields opf) k (isObjCtor_deepMerge_obj _ _)
      (by rw [expandAVFields_nodup]; exact hop),
    expandAVFields_lookup opf k, if_neg hk, hinner]

theorem resolvedAV_expand_allBool (opf rof rrf : JFields)
    (hop : opf.nodupKeys = true) (hro : rof.nodupKeys = true)
    (hb1 : isBoolishAV (opf.lookup "autoValidate") = true)
    (hb2 : isBoolishAV (rof.lookup "autoValidate") = true)
    (hb3 : isBoolishAV (rrf.lookup "autoValidate") = true) :
    resolvedAV (some (.obj opf)) (some (.obj rof)) (some (.obj rrf)) =
      resolvedAV (some (.obj (expandAVFields opf))) (some (.obj (expandAVFields rof)))
        (some (.obj (expandAVFields rrf))) := by
  unfold resolvedAV
  have hraw : getProp (getOperationOptions (some (.obj opf)) (some (.obj rof))
      (some (.obj rrf))) "autoValidate" =
      firstSet (opf.lookup "autoValidate")
        (firstSet (rof.lookup "autoValidate") (rrf.lookup "autoValidate")) := by
    show getProp (deepMerge (deepMerge (.obj rrf) (.obj rof)) (.obj opf)) "autoValidate" = _
    rw [getProp_deepMerge_av_boolish _ opf (isObjCtor_deepMerge_obj rrf rof) hop hb1,
      getProp_deepMerge_av_boolish (.obj rrf) rof
        (show isObjCtor (JValue.obj rrf) = true from rfl) hro hb2]
    rfl
  have hE2 : isEishAV ((expandAVFields rof).lookup "autoValidate") = true := by
    rw [expandAVFields_lookup, if_pos rfl]
    exact isEishAV_map _ hb2
  have hE1 : isEishAV ((expandAVFields opf).lookup "autoValidate") = true := by
    rw [expandAVFields_lookup, if_pos rfl]
    exact isEishAV_map _ hb1
  have hE3 : isEishAV (getProp (JValue.obj (expandAVFields rrf)) "autoValidate") = true := by
    rw [show getProp (JValue.obj (expandAVFields rrf)) "autoValidate" =
      (expandAVFields rrf).lookup "autoValidate" from rfl, expandAVFields_lookup, if_pos rfl]
    exact isEishAV_map _ hb3
  have hinner : getProp (deepMerge (.obj (expandAVFields rrf)) (.obj (expandAVFields rof)))
      "autoValidate" =
      firstSet ((rof.lookup "autoValidate").map expandVal)
        ((rrf.lookup "autoValidate").map expandVal) := by
    rw [getProp_deepMerge_av_Eish (.obj (expandAVFields rrf)) (expandAVFields rof)
      (show isObjCtor (JValue.obj (expandAVFields rrf)) = true from rfl)
      (by rw [expandAVFields_nodup]; exact hro) hE2 hE3,
      expandAVFields_lookup rof, if_pos rfl,
      show getProp (JValue.obj (expandAVFields rrf)) "autoValidate" =
        (expandAVFields rrf).lookup "autoValidate" from rfl,
      expandAVFields_lookup rrf, if_pos rfl]
  have hexp : getProp (getOperationOptions (some (.obj (expandAVFields opf)))
      (some (.obj (expandAVFields rof))) (some (.obj (expandAVFields rrf)))) "autoValidate" =
      firstSet ((opf.lookup "autoValidate").map expandVal)
        (firstSet ((rof.lookup "autoValidate").map expandVal)
          ((rrf.lookup "autoValidate").map expandVal)) := by
    show getProp (deepMerge (deepMerge (.obj (expandAVFields rrf)) (.obj (expandAVFields rof)))
      (.obj (expandAVFields opf))) "autoValidate" = _
    rw [getProp_deepMerge_av_Eish _ (expandAVFields opf) (isObjCtor_deepMerge_obj _ _)
      (by rw [expandAVFields_nodup]; exact hop) hE1
      (by rw [hinner]
          exact isEishAV_firstSet _ _ (isEishAV_map _ hb2) (isEishAV_map _ hb3)),
      expandAVFields_lookup opf, if_pos rfl, hinner]
  rw [hraw, hexp, firstSet_map, firstSet_map]
  exact gavc_boolish_map _
    (isBoolishAV_firstSet _ _ hb1 (isBoolishAV_firstSet _ _ hb2 hb3))

theorem updateFirstRoute_length (p : String) (methods : List (Method × Operator))
    (options : Option JValue) : ∀ rs : List Route,
    (updateFirstRoute p methods options rs).length = rs.length := by
  intro rs
  induction rs with
  | nil => rfl
  | cons r rest ih =>
    by_cases h : r.path = p <;> simp [updateFirstRoute, h, ih]

/-! ## Small helpers for the claim proofs -/

theorem jsGet_some (v : JValue) (k : String) (h : v ≠ .null) :
    jsGet (some v) k = .ok (getProp v k) := by
  cases v with
  | null => exact absurd rfl h
  | bool b => rfl
  | num n => rfl
  | str s => rfl
  | arr el pr => rfl
  | obj fs => rfl

theorem except_bind_ok {ε α β : Type} (a : α) (f : α → Except ε β) :
    (Except.ok a : Except ε α) >>= f = f a := rfl

theorem avBoolOrAbsent_obj (fs : JFields) :
    avBoolOrAbsent (some (.obj fs)) = isBoolishAV (fs.lookup "autoValidate") := by
  show (match getProp (JValue.obj fs) "autoValidate" with
    | none => true | some (.bool _) => true | _ => false) = _
  rw [show getProp (JValue.obj fs) "autoValidate" = fs.lookup "autoValidate" from rfl]
  cases fs.lookup "autoValidate" with
  | none => rfl
  | some v => cases v <;> rfl

theorem refFn_parse (sect name : String) (hsect : '/' ∉ sect.data) (hname : '/' ∉ name.data) :
    (jsSplit '/' (replaceFirstHashSlash ("#/components/" ++ sect ++ "/" ++ name).data)).get? 2 =
      some name.data := by
  have hdata : ("#/components/" ++ sect ++ "/" ++ name).data =
      '#' :: '/' :: ("components".data ++ '/' :: (sect.data ++ '/' :: name.data)) := by
    simp [String.data_append, List.append_assoc]
  rw [hdata,
    show replaceFirstHashSlash
        ('#' :: '/' :: ("components".data ++ '/' :: (sect.data ++ '/' :: name.data))) =
      "components".data ++ '/' :: (sect.data ++ '/' :: name.data) from rfl,
    jsSplit_append '/' "components".data _ (by decide),
    jsSplit_append '/' sect.data _ hsect,
    jsSplit_sepFree '/' name.data hname]
  rfl

theorem specPaths_single (st : RouterState) (r : Route) (m : Method) (op : Operator)
    (hdoc : isObjCtor st.document = true) (hp : getProp st.document "paths" = none)
    (hsm : st.specModifier = none) (hroutes : st.routes = [r]) (hropts : r.options = none)
    (hmethods : r.methods = [(m, op)]) (hexc : operatorExcluded st r op = false) :
    getProp (specificationPaths st) (docKey r) =
      some (.obj (.cons m.key op.specification .nil)) := by
  have hinit : initialPaths st = .obj .nil := initialPaths_empty st hdoc hp
  have hre : routeExcluded r = false := by
    unfold routeExcluded
    rw [hropts]
  have ham : applyModifier st op.specification = op.specification := by
    unfold applyModifier
    rw [hsm]
  have hentry : routeEntry st r (.obj .nil) = .obj (.cons m.key op.specification .nil) := by
    unfold routeEntry
    rw [hmethods, List.foldl_cons, List.foldl_nil]
    dsimp only
    rw [hexc]
    rw [ham]
    rfl
  show getProp (st.routes.foldl (processRoute st) (initialPaths st)) (docKey r) = _
  rw [hroutes, hinit, List.foldl_cons, List.foldl_nil,
    getProp_processRoute_self st (.obj .nil) r rfl rfl, hre, hentry]
  rfl

/-! ## The claims -/

/-- C1 (counterexample): a boolean `autoValidate: false` at the operator
level, which leaves the leaf `autoValidate.request.errorResponse.status`
unset, nevertheless hides the route-level value `422` of that leaf: the
merged options lose the leaf entirely (and so does the normalized
auto-validate configuration), so an unset field at a higher-precedence level
*does* hide a value set at a lower-precedence level. -/
theorem C1_counterexample :
    lookupPath c1OperatorOpts c1Path = none ∧
    lookupPath c1RouteOpts c1Path = some (.num 422) ∧
    lookupPath (getOperationOptions (some c1OperatorOpts) (some c1RouteOpts) (some (jobj [])))
      c1Path = none ∧
    getProp (resolvedAV (some c1OperatorOpts) (some c1RouteOpts) (some (jobj []))).request
      "errorResponse" = none := by
  decide

/-- C1 (amended): restricted to option values that are structurally
compatible with the leaf path under scrutiny — along every proper prefix of
the path each level stores nothing or a plain object with unique keys, and at
the leaf itself nothing or a non-object value (scalar or array) — the merged
operation options resolve every leaf field by strict
operator > route > service precedence, falling through to the next lower
level exactly when the leaf is unset. -/
theorem C1_leaf_precedence_amended (op ro rr : JValue) (k : String) (ks : List String)
    (hop : okAt (some op) (k :: ks) = true) (hro : okAt (some ro) (k :: ks) = true)
    (hrr : okAt (some rr) (k :: ks) = true) :
    lookupPath (getOperationOptions (some op) (some ro) (some rr)) (k :: ks) =
      firstSet (lookupPath op (k :: ks))
        (firstSet (lookupPath ro (k :: ks)) (lookupPath rr (k :: ks))) := by
  show lookupPath (deepMerge (deepMerge rr ro) op) (k :: ks) = _
  rw [lookupPath_deepMerge ks k (deepMerge rr ro) op (okAt_deepMerge ks k rr ro hrr hro) hop,
    lookupPath_deepMerge ks k rr ro hrr hro]

/-- Concrete instance of the amended precedence law: the operator level
leaves `prefix` unset, so the route-level `"/v1"` wins over the
service-level `"/api"`. -/
theorem C1_leaf_precedence_amended_witness :
    (okAt (some (jobj [("autoValidate", .bool true)])) ["prefix"] = true ∧
     okAt (some (jobj [("prefix", .str "/v1")])) ["prefix"] = true ∧
     okAt (some (jobj [("prefix", .str "/api")])) ["prefix"] = true) ∧
    lookupPath (getOperationOptions (some (jobj [("autoValidate", .bool true)]))
        (some (jobj [("prefix", .str "/v1")])) (some (jobj [("prefix", .str "/api")])))
      ["prefix"] =
      firstSet (lookupPath (jobj [("autoValidate", .bool true)]) ["prefix"])
        (firstSet (lookupPath (jobj [("prefix", .str "/v1")]) ["prefix"])
          (lookupPath (jobj [("prefix", .str "/api")]) ["prefix"])) :=
  ⟨⟨by decide, by decide, by decide⟩,
    C1_leaf_precedence_amended (jobj [("autoValidate", .bool true)])
      (jobj [("prefix", .str "/v1")]) (jobj [("prefix", .str "/api")]) "prefix" []
      (by decide) (by decide) (by decide)⟩

/-- C2 (code bug): for the integration-test configuration — constructor
options enabling request validation and a registered `POST /users` operation
whose body schema requires `email` — and a request whose body lacks `email`,
the resolved `autoValidate.request.validate` is `true` and the operation is
found, yet the hook's `try` block throws a `TypeError` for *every* possible
schema validator (the call site passes `operation.specification` as
`getRequestBodySchema`'s `contentType` parameter and nothing as its
`specification` parameter), and the surrounding `catch` swallows the error,
so the hook always falls through to the handler and never sends the
documented 400 response. -/
theorem C2_validation_hook_never_replies :
    getProp (describeOperation c2State .post "/users").autoValidate.request "validate" =
      some (.bool true) ∧
    (describeOperation c2State .post "/users").operation =
      some { specification := createUserSpec, handlerId := 1, options := none } ∧
    (∀ v : Validator, preValidationTry c2State v c2Request =
      .error "TypeError: cannot destructure requestBody of undefined") ∧
    (∀ v : Validator, preValidation c2State v c2Request = .proceed) :=
  ⟨by decide, by decide, fun v => rfl, fun v => rfl⟩

/-- C3 (counterexample): replacing the operator-level boolean
`autoValidate: true` by `{request: {validate: true}, response: {validate:
true}}` before merging does *not* yield the same resolved options: the raw
boolean overwrites the route level's whole `autoValidate` object (losing its
nested `errorResponse`), while the expanded form merges with it and keeps
`errorResponse` — so the boolean shorthand is not equivalent to its object
form under `deepMerge`. -/
theorem C3_counterexample :
    getOperationOptions (some c3OperatorOpts) (some c3RouteOpts) (some (jobj [])) ≠
      getOperationOptions (some (expandBoolAV c3OperatorOpts)) (some (expandBoolAV c3RouteOpts))
        (some (expandBoolAV (jobj []))) ∧
    resolvedAV (some c3OperatorOpts) (some c3RouteOpts) (some (jobj [])) ≠
      resolvedAV (some (expandBoolAV c3OperatorOpts)) (some (expandBoolAV c3RouteOpts))
        (some (expandBoolAV (jobj []))) ∧
    lookupPath (getOperationOptions (some c3OperatorOpts) (some c3RouteOpts) (some (jobj [])))
      ["autoValidate", "request", "errorResponse"] = none ∧
    lookupPath (getOperationOptions (some (expandBoolAV c3OperatorOpts))
        (some (expandBoolAV c3RouteOpts)) (some (expandBoolAV (jobj []))))
      ["autoValidate", "request", "errorResponse"] =
      some (jobj [("status", .num 422)]) := by
  decide

/-- C3 (amended): the boolean shorthand is equivalent to its expanded object
form when the three levels do not mix the two shapes: if the `autoValidate`
field is boolean-or-absent at all three levels, or plain-object-or-absent at
all three levels (with unique keys in the operator- and route-level objects),
then expanding every boolean `autoValidate` to
`{request: {validate: b}, response: {validate: b}}` before the merge leaves
the normalized auto-validate configuration of the resolved options, and every
other resolved field, unchanged. -/
theorem C3_boolean_shorthand_amended (opf rof rrf : JFields)
    (hop : opf.nodupKeys = true) (hro : rof.nodupKeys = true) (hrr : rrf.nodupKeys = true)
    (hcase :
      (avBoolOrAbsent (some (.obj opf)) && avBoolOrAbsent (some (.obj rof)) &&
        avBoolOrAbsent (some (.obj rrf))) = true ∨
      (avObjOrAbsent (some (.obj opf)) && avObjOrAbsent (some (.obj rof)) &&
        avObjOrAbsent (some (.obj rrf))) = true) :
    resolvedAV (some (.obj opf)) (some (.obj rof)) (some (.obj rrf)) =
      resolvedAV (some (expandBoolAV (.obj opf))) (some (expandBoolAV (.obj rof)))
        (some (expandBoolAV (.obj rrf))) ∧
    ∀ k : String, k ≠ "autoValidate" →
      getProp (getOperationOptions (some (.obj opf)) (some (.obj rof)) (some (.obj rrf))) k =
        getProp (getOperationOptions (some (expandBoolAV (.obj opf)))
          (some (expandBoolAV (.obj rof))) (some (expandBoolAV (.obj rrf)))) k := by
  refine ⟨?_, fun k hk => getProp_getOpOptions_expand_ne opf rof rrf k hop hro hk⟩
  rcases hcase with hb | ho
  · obtain ⟨⟨h1, h2⟩, h3⟩ : (_ ∧ _) ∧ _ := by
      simpa [Bool.and_eq_true] using hb
    rw [avBoolOrAbsent_obj] at h1 h2 h3
    exact resolvedAV_expand_allBool opf rof rrf hop hro h1 h2 h3
  · obtain ⟨⟨h1, h2⟩, h3⟩ : (_ ∧ _) ∧ _ := by
      simpa [Bool.and_eq_true] using ho
    show resolvedAV (some (.obj opf)) (some (.obj rof)) (some (.obj rrf)) =
      resolvedAV (some (.obj (expandAVFields opf))) (some (.obj (expandAVFields rof)))
        (some (.obj (expandAVFields rrf)))
    rw [expandAVFields_objish opf hop h1, expandAVFields_objish rof hro h2,
      expandAVFields_objish rrf hrr h3]

/-- Concrete instance of the amended shorthand equivalence: booleans at the
operator and route levels, nothing at the service level; expansion before
merging changes neither the normalized auto-validate configuration nor the
resolved `prefix`. -/
theorem C3_boolean_shorthand_amended_witness :
    (JFields.nodupKeys c3wOp = true ∧ JFields.nodupKeys c3wRo = true ∧
     JFields.nodupKeys c3wRr = true ∧
     (avBoolOrAbsent (some (.obj c3wOp)) && avBoolOrAbsent (some (.obj c3wRo)) &&
       avBoolOrAbsent (some (.obj c3wRr))) = true) ∧
    resolvedAV (some (.obj c3wOp)) (some (.obj c3wRo)) (some (.obj c3wRr)) =
      resolvedAV (some (expandBoolAV (.obj c3wOp))) (some (expandBoolAV (.obj c3wRo)))
        (some (expandBoolAV (.obj c3wRr))) ∧
    getProp (getOperationOptions (some (.obj c3wOp)) (some (.obj c3wRo)) (some (.obj c3wRr)))
      "prefix" =
      getProp (getOperationOptions (some (expandBoolAV (.obj c3wOp)))
        (some (expandBoolAV (.obj c3wRo))) (some (expandBoolAV (.obj c3wRr)))) "prefix" :=
  ⟨⟨by decide, by decide, by decide, by decide⟩,
    (C3_boolean_shorthand_amended c3wOp c3wRo c3wRr (by decide) (by decide) (by decide)
      (Or.inl (by decide))).1,
    (C3_boolean_shorthand_amended c3wOp c3wRo c3wRr (by decide) (by decide) (by decide)
      (Or.inl (by decide))).2 "prefix" (by decide)⟩

/-- C4: `initialize` installs the pre-validation hook exactly when the
constructor-level normalized `request.validate` is not the value `false`,
and the pre-serialization hook exactly when the normalized
`response.validate` is not `false`; the decision reads only the constructor
options — two routers with the same constructor options but arbitrary
different documents, spec modifiers and registered routes (hence arbitrary
route- and operator-level `autoValidate` settings) install exactly the same
hooks. -/
theorem C4_hooks_from_router_options_only (doc doc' o : JValue)
    (sm sm' : Option (JValue → JValue)) (routes routes' : List Route) :
    (initRouter ⟨doc, o, sm, routes⟩).preValidationHook =
      (getProp (getAutoValidateConfig (getProp o "autoValidate")).request "validate"
        != some (.bool false)) ∧
    (initRouter ⟨doc, o, sm, routes⟩).preSerializationHook =
      (getProp (getAutoValidateConfig (getProp o "autoValidate")).response "validate"
        != some (.bool false)) ∧
    (initRouter ⟨doc, o, sm, routes⟩).preValidationHook =
      (initRouter ⟨doc', o, sm', routes'⟩).preValidationHook ∧
    (initRouter ⟨doc, o, sm, routes⟩).preSerializationHook =
      (initRouter ⟨doc', o, sm', routes'⟩).preSerializationHook :=
  ⟨rfl, rfl, rfl, rfl⟩

/-- C5 (code bug): resolving `#/components/schemas/User` with the override
`{required: ["id"]}` returns the `User` schema *without* any `required`
field: the destructuring in `ref` never reads an `override` option, so the
override is dropped entirely, while the spec (and the repository's own unit
test) expect the override merged onto a copy of the schema, which would
carry `required: ["id"]`. -/
theorem C5_ref_override_ignored :
    refFn mockDocument "#/components/schemas/User" false (some c5Override) = .ok userSchema ∧
    getProp userSchema "required" = none ∧
    getProp (deepMerge userSchema c5Override) "required" = some (jarr [.str "id"]) ∧
    deepMerge userSchema c5Override ≠ userSchema :=
  ⟨rfl, by decide, by decide, by decide⟩

/-- C7 (counterexample): an array in the *base* is not protected from
element-wise patching: with base `{a: [1, 2]}` and patch `{a: {"0": 9}}` the
patch value is a map and the base value an array, so by the claim the patch
should overwrite wholesale (giving `{a: {"0": 9}}`), but `deepMerge` treats
the array as an object (`typeof [] === 'object'`), recurses, and produces the
element-wise patched array `[9, 2]`. -/
theorem C7_counterexample :
    getProp (deepMerge c7Base c7Patch) "a" = some (jarr [.num 9, .num 2]) ∧
    getProp c7Patch "a" = some (jobj [("0", .num 9)]) ∧
    getProp c7Base "a" = some (jarr [.num 1, .num 2]) ∧
    getProp (deepMerge c7Base c7Patch) "a" ≠ getProp c7Patch "a" := by
  decide

/-- C7 (amended): per-key behavior of `deepMerge` on two objects (the patch
with unique keys): a key absent from the patch retains the base value; an
array patch value always replaces wholesale; when base and patch values are
both truthy and of `typeof 'object'` (which includes arrays and excludes
`null`) and the patch value is not an array, the merge recurses; in every
other case the patch value overwrites. -/
theorem C7_deepMerge_amended (bf pf : JFields) (k : String) (hnd : pf.nodupKeys = true) :
    (pf.lookup k = none →
      getProp (deepMerge (.obj bf) (.obj pf)) k = bf.lookup k) ∧
    (∀ pv, pf.lookup k = some pv → isArr pv = true →
      getProp (deepMerge (.obj bf) (.obj pf)) k = some pv) ∧
    (∀ bv pv, bf.lookup k = some bv → pf.lookup k = some pv → isArr pv = false →
      (truthy bv && truthy pv && isObjType bv && isObjType pv) = true →
      getProp (deepMerge (.obj bf) (.obj pf)) k = some (deepMerge bv pv)) ∧
    (∀ pv, pf.lookup k = some pv →
      (∀ bv, bf.lookup k = some bv →
        (truthy bv && truthy pv && isObjType bv && isObjType pv) = false) →
      getProp (deepMerge (.obj bf) (.obj pf)) k = some pv) := by
  refine ⟨?_, ?_, ?_, ?_⟩
  · intro h
    rw [getProp_deepMerge_obj bf pf k hnd, h]
  · intro pv hp harr
    rw [getProp_deepMerge_obj bf pf k hnd, hp]
    cases hb : bf.lookup k with
    | none => rfl
    | some bv =>
      by_cases hc : (truthy bv && truthy pv && isObjType bv && isObjType pv) = true
      · simp [mergeValDef, hc, harr]
      · simp [mergeValDef, hc]
  · intro bv pv hb hp harr hc
    rw [getProp_deepMerge_obj bf pf k hnd, hp, hb]
    simp [mergeValDef, hc, harr]
  · intro pv hp hcond
    rw [getProp_deepMerge_obj bf pf k hnd, hp]
    cases hb : bf.lookup k with
    | none => rfl
    | some bv => simp [mergeValDef, hcond bv hb]

/-- Concrete instance of the amended merge law: `{o: {p: 1}}` patched with
`{o: {q: 2}}` recurses on `o`. -/
theorem C7_deepMerge_amended_witness :
    JFields.nodupKeys c7wPatch = true ∧
    getProp (deepMerge (.obj c7wBase) (.obj c7wPatch)) "o" =
      some (deepMerge (jobj [("p", .num 1)]) (jobj [("q", .num 2)])) :=
  ⟨by decide,
    (C7_deepMerge_amended c7wBase c7wPatch "o" (by decide)).2.2.1
      (jobj [("p", .num 1)]) (jobj [("q", .num 2)]) (by decide) (by decide) (by decide)
      (by decide)⟩

/-- C8: registering the same composed path twice yields one route whose
method record contains both methods, with the options of the latest call and
only a warning flag raised (first conjunct, the concrete `/test` get-then-post
scenario, including a later same-method registration whose entry wins); and
in general (second conjunct) a registration warns exactly when some existing
route carries the same final composed path, merging instead of appending in
exactly that case. -/
theorem C8_route_conflict_merge :
    ((routeReg (mkRouter mockDocument (jobj [])) "/test" [(.get, c8Op1)] (some c8Opts1)).2 =
        false ∧
     (routeReg (routeReg (mkRouter mockDocument (jobj [])) "/test" [(.get, c8Op1)]
         (some c8Opts1)).1 "/test" [(.post, c8Op2)] (some c8Opts2)).2 = true ∧
     (routeReg (routeReg (mkRouter mockDocument (jobj [])) "/test" [(.get, c8Op1)]
         (some c8Opts1)).1 "/test" [(.post, c8Op2)] (some c8Opts2)).1.routes =
       [{ path := "/test", methods := [(.get, c8Op1), (.post, c8Op2)],
          options := some c8Opts2 }] ∧
     (routeReg (routeReg (routeReg (mkRouter mockDocument (jobj [])) "/test" [(.get, c8Op1)]
         (some c8Opts1)).1 "/test" [(.post, c8Op2)] (some c8Opts2)).1 "/test"
         [(.get, c8Op2)] none).1.routes =
       [{ path := "/test", methods := [(.get, c8Op2), (.post, c8Op2)], options := none }] ∧
     (routeReg (routeReg (mkRouter mockDocument (jobj [])) "users" [(.get, c8Op1)] none).1
         "/users/" [(.post, c8Op2)] none).2 = true) ∧
    ∀ (st : RouterState) (path : String) (methods : List (Method × Operator))
      (options : Option JValue),
      (routeReg st path methods options).2 =
        st.routes.any (fun r => r.path =
          getOperationPath path (some (getOperationOptions none options (some st.options)))) ∧
      (routeReg st path methods options).1.routes.length =
        (if (routeReg st path methods options).2 then st.routes.length
         else st.routes.length + 1) := by
  refine ⟨⟨by decide, by decide, by decide, by decide, by decide⟩, ?_⟩
  intro st path methods options
  unfold routeReg
  dsimp only
  cases hc : st.routes.any (fun r => r.path =
      getOperationPath path (some (getOperationOptions none options (some st.options)))) with
  | true => simp [updateFirstRoute_length]
  | false => simp

/-- C9: for a router whose document has no `paths` of its own and whose
routes have pairwise distinct specification keys, the assembled `paths`
omits every method whose resolved `excludeFromSpecification` is `true`
(first conjunct: looking the route's entry up and then the method's key
yields nothing), and omits the route's entry entirely when every method
under it is excluded (second conjunct). -/
theorem C9_specification_exclusion (st : RouterState) (r : Route)
    (hdoc : isObjCtor st.document = true) (hp : getProp st.document "paths" = none)
    (hnd : (st.routes.map docKey).Nodup) (hr : r ∈ st.routes)
    (hm : (r.methods.map Prod.fst).Nodup) :
    (∀ (m : Method) (op : Operator), (m, op) ∈ r.methods → operatorExcluded st r op = true →
      (getProp (specificationPaths st) (docKey r)).bind (fun e => getProp e m.key) = none) ∧
    ((∀ p ∈ r.methods, operatorExcluded st r p.2 = true) →
      getProp (specificationPaths st) (docKey r) = none) := by
  have hinit : initialPaths st = .obj .nil := initialPaths_empty st hdoc hp
  have hbase : getProp (specificationPaths st) (docKey r) =
      (if routeExcluded r then none
       else if jsEmptyKeys (routeEntry st r (.obj .nil)) then none
       else some (routeEntry st r (.obj .nil))) := by
    show getProp (st.routes.foldl (processRoute st) (initialPaths st)) (docKey r) = _
    rw [hinit]
    exact getProp_foldProcess st st.routes (.obj .nil) r rfl hr hnd rfl
  constructor
  · intro m op hmem hexc
    rw [hbase]
    by_cases he : routeExcluded r
    · rw [if_pos he]
      rfl
    · rw [if_neg he]
      by_cases hemp : jsEmptyKeys (routeEntry st r (.obj .nil))
      · rw [if_pos hemp]
        rfl
      · rw [if_neg hemp]
        show getProp (routeEntry st r (.obj .nil)) m.key = none
        exact routeEntry_excluded_lookup_aux st r m op r.methods (.obj .nil) rfl hm hmem hexc
  · intro hall
    rw [hbase]
    by_cases he : routeExcluded r
    · rw [if_pos he]
    · rw [if_neg he,
        if_pos (show jsEmptyKeys (routeEntry st r (.obj .nil)) = true by
          rw [routeEntry_all_excluded st r hall]
          rfl)]

/-- Concrete instance of the exclusion law: a router whose only route has a
single `get` operation excluded at the operator level assembles a `paths`
map without that route's entry. -/
theorem C9_specification_exclusion_witness :
    (isObjCtor c9State.document = true ∧ getProp c9State.document "paths" = none ∧
     (c9State.routes.map docKey).Nodup ∧ c9Route ∈ c9State.routes ∧
     (c9Route.methods.map Prod.fst).Nodup) ∧
    getProp (specificationPaths c9State) (docKey c9Route) = none :=
  ⟨⟨rfl, by decide, by decide, by decide, by decide⟩,
    (C9_specification_exclusion c9State c9Route rfl (by decide) (by decide) (by decide)
      (by decide)).2 (by decide)⟩

/-- C10: for a router whose constructor options carry a prefix with at least
one real segment (and no `excludeFromSpecification`, over a document with no
`paths` of its own), registering a route stores the singly-prefixed composed
path; `initialize` then composes the prefix onto the stored path a *second*
time, so the path registered with the host server is the doubly-prefixed
one, while the assembled specification document keys the route under the
singly-prefixed (brace-form) path — and the two disagree, having different
numbers of `/`-separated segments. -/
theorem C10_prefix_doubling (doc spec : JValue) (fo : JFields) (raw : String) (m : Method)
    (hid : Nat) (hpre : prefixHasSeg (.obj fo) = true)
    (hdoc : isObjCtor doc = true) (hp : getProp doc "paths" = none)
    (hexc : (getProp (.obj fo) "excludeFromSpecification" == some (JValue.bool true)) = false) :
    (routeReg (mkRouter doc (.obj fo)) raw [(m, ⟨spec, hid, none⟩)] none).1.routes.map
        Route.path = [getOperationPath raw (some (.obj fo))] ∧
    (initRouter (routeReg (mkRouter doc (.obj fo)) raw
        [(m, ⟨spec, hid, none⟩)] none).1).registered.map (fun t => t.2.1) =
      [getOperationPath (getOperationPath raw (some (.obj fo))) (some (.obj fo))] ∧
    getProp (specificationPaths (routeReg (mkRouter doc (.obj fo)) raw
        [(m, ⟨spec, hid, none⟩)] none).1)
      (replacePathWithOpenApiParams (getOperationPath raw (some (.obj fo)))) =
      some (.obj (.cons m.key spec .nil)) ∧
    getOperationPath (getOperationPath raw (some (.obj fo))) (some (.obj fo)) ≠
      replacePathWithOpenApiParams (getOperationPath raw (some (.obj fo))) := by
  refine ⟨rfl, rfl, ?_, doublePrefix_ne raw (.obj fo) hpre⟩
  exact specPaths_single (routeReg (mkRouter doc (.obj fo)) raw [(m, ⟨spec, hid, none⟩)] none).1
    { path := getOperationPath raw (some (.obj fo)), methods := [(m, ⟨spec, hid, none⟩)],
      options := none }
    m ⟨spec, hid, none⟩ hdoc hp rfl rfl rfl rfl hexc

/-- Concrete instance of the double-prefix disagreement: prefix `"/api"` and
raw path `"/users"` store `"/api/users"` but register `"/api/api/users"`. -/
theorem C10_prefix_doubling_witness :
    (prefixHasSeg c10Opts = true ∧ isObjCtor mockDocument = true ∧
     getProp mockDocument "paths" = none ∧
     (getProp c10Opts "excludeFromSpecification" == some (JValue.bool true)) = false) ∧
    getOperationPath (getOperationPath "/users" (some c10Opts)) (some c10Opts) ≠
      replacePathWithOpenApiParams (getOperationPath "/users" (some c10Opts)) ∧
    getOperationPath "/users" (some c10Opts) = "/api/users" ∧
    getOperationPath (getOperationPath "/users" (some c10Opts)) (some c10Opts) =
      "/api/api/users" :=
  ⟨⟨by decide, rfl, by decide, by decide⟩,
    (C10_prefix_doubling mockDocument helloSpec (jfieldsOf [("prefix", JValue.str "/api")])
      "/users" .get 1 (by decide) rfl (by decide) (by decide)).2.2.2,
    by decide, by decide⟩

/-- C6 (counterexample): resolving `#/components/responses/Foo` looks the
component up under `components.schemas.Foo` — the parsed `<section>` segment
is ignored — so even though `components.responses.Foo` exists and is
non-empty, the resolver returns the empty object; and on a document with no
`components` at all the resolver throws a `TypeError` instead of returning
an empty object. -/
theorem C6_counterexample :
    refFn c6Document "#/components/responses/Foo" false none = .ok (jobj []) ∧
    (getProp c6Document "components").bind (fun c => getProp c "responses") =
      some (jobj [("Foo", jobj [("description", .str "ok")])]) ∧
    jobj [] ≠ jobj [("description", .str "ok")] ∧
    refFn (jobj []) "#/components/schemas/X" false none =
      .error "TypeError: cannot read properties of undefined" :=
  ⟨rfl, by decide, by decide, rfl⟩

/-- C6 (amended): for a reference `#/components/<section>/<name>` (with
slash-free section and name) over a document whose `components` and
`components.schemas` exist and are not `null`, resolving without `useRef`
returns the spread of `document.components.schemas[<name>]` — the section
segment is ignored and the lookup is hardwired to `schemas` — and in
particular a missing component degrades to the empty object rather than a
thrown error.  (When `components` or `components.schemas` is absent the
resolver throws instead; the counterexample shows that case.) -/
theorem C6_ref_lookup_amended (doc comps schemas : JValue) (sect name : String)
    (ov : Option JValue)
    (hc : getProp doc "components" = some comps) (hcn : comps ≠ .null)
    (hs : getProp comps "schemas" = some schemas) (hsn : schemas ≠ .null)
    (hsect : '/' ∉ sect.data) (hname : '/' ∉ name.data) :
    refFn doc ("#/components/" ++ sect ++ "/" ++ name) false ov =
      .ok (spreadToObj (getProp schemas name)) := by
  have hdn : doc ≠ .null := by
    intro h
    rw [h] at hc
    exact Option.noConfusion hc
  unfold refFn
  dsimp only
  rw [refFn_parse sect name hsect hname]
  dsimp only
  rw [jsGet_some doc "components" hdn, hc, except_bind_ok,
    jsGet_some comps "schemas" hcn, hs, except_bind_ok,
    jsGet_some schemas name hsn, except_bind_ok]
  rfl

/-- Concrete instance of the amended resolution law: on the counterexample
document, `#/components/responses/Foo` resolves under `schemas`, where `Foo`
is missing, and degrades to the empty object. -/
theorem C6_ref_lookup_amended_witness :
    (getProp c6Document "components" =
       some (jobj [("schemas", jobj []),
                   ("responses", jobj [("Foo", jobj [("description", .str "ok")])])]) ∧
     jobj [("schemas", jobj []),
           ("responses", jobj [("Foo", jobj [("description", .str "ok")])])] ≠ JValue.null ∧
     getProp (jobj [("schemas", jobj []),
                    ("responses", jobj [("Foo", jobj [("description", .str "ok")])])])
       "schemas" = some (jobj []) ∧
     jobj [] ≠ JValue.null ∧ '/' ∉ "responses".data ∧ '/' ∉ "Foo".data) ∧
    refFn c6Document ("#/components/" ++ "responses" ++ "/" ++ "Foo") false none =
      .ok (jobj []) :=
  ⟨⟨by decide, by decide, by decide, by decide, by decide, by decide⟩,
    C6_ref_lookup_amended c6Document
      (jobj [("schemas", jobj []),
             ("responses", jobj [("Foo", jobj [("description", .str "ok")])])])
      (jobj []) "responses" "Foo" none (by decide) (by decide) (by decide) (by decide)
      (by decide) (by decide)⟩
